import Mathlib

/-!
Shallow embedding of `src/lib/querybuilder/querybuilder.js` from the
feathers-couchbase repository, together with proofs about the claims of
its specification.  JavaScript numbers are modelled as rationals,
stateful methods as explicit state passing, and thrown exceptions as
`Except` values.
-/

namespace FeathersCouchbase

/-- Model of the JavaScript values flowing through the query builder as
bound parameters and clause arguments.  Array and object payloads are not
used as parameter values by any query settled in this development, so the
payload type stops at the four primitive shapes. -/
inductive JSVal where
  | null
  | bool (b : Bool)
  | num (q : ℚ)
  | str (s : String)
deriving DecidableEq

/-- Failure model: `queryError` is the repository's `QueryError` class,
`genericError` a plain JavaScript `Error`, and `typeError` a runtime
`TypeError` raised by the engine on a shape mismatch. -/
inductive JSError where
  | queryError (msg : String)
  | genericError (msg : String)
  | typeError
deriving DecidableEq

/-- Models JavaScript `Array.prototype.join(sep)`. -/
def jsJoin (sep : String) : List String → String
  | [] => ""
  | [s] => s
  | s :: rest => s ++ sep ++ jsJoin sep rest

/-- Models JavaScript `String.prototype.toUpperCase` on the ASCII inputs
this builder handles (order tokens and operator names). -/
def jsToUpper (s : String) : String :=
  ⟨s.data.map Char.toUpper⟩

/-- Value of a run of decimal digit characters, folded left to right from
an accumulator (the reading direction of `parseInt`/`parseFloat`). -/
def evalDigits : List Char → Nat → Nat
  | [], acc => acc
  | c :: cs, acc => evalDigits cs (acc * 10 + (c.toNat - 48))

/-- Splits a character list into its maximal leading digit run and the
rest. -/
def takeDigits (l : List Char) : List Char × List Char :=
  (l.takeWhile Char.isDigit, l.dropWhile Char.isDigit)

/-- Models the JavaScript `parseFloat` primitive: skip leading whitespace,
optional sign, digits with an optional fractional part, trailing
characters ignored.  `none` is `NaN`.  Exponent and hexadecimal notation
are not modelled; no input settled in this development uses them. -/
def parseFloatChars (chars : List Char) : Option ℚ :=
  let l := chars.dropWhile Char.isWhitespace
  let signAndRest : Bool × List Char :=
    match l with
    | '-' :: rest => (true, rest)
    | '+' :: rest => (false, rest)
    | _ => (false, l)
  let neg := signAndRest.1
  let (ip, afterInt) := takeDigits signAndRest.2
  let fp : List Char :=
    match afterInt with
    | '.' :: rest => (takeDigits rest).1
    | _ => []
  if ip.isEmpty && fp.isEmpty then none
  else
    let mag : ℚ := (evalDigits ip 0 : ℚ) + (evalDigits fp 0 : ℚ) / ((10 : ℚ) ^ fp.length)
    some (if neg then -mag else mag)

/-- Models the JavaScript `Number` coercion of a string (the coercion
`isFinite` applies): trimmed, empty means `0`, and otherwise the whole
string must be a numeric literal.  `none` is `NaN`. -/
def numberOfString (s : String) : Option ℚ :=
  let l₀ := s.data.dropWhile Char.isWhitespace
  let l₁ := (l₀.reverse.dropWhile Char.isWhitespace).reverse
  if l₁.isEmpty then some 0
  else
    let signAndRest : Bool × List Char :=
      match l₁ with
      | '-' :: rest => (true, rest)
      | '+' :: rest => (false, rest)
      | _ => (false, l₁)
    let neg := signAndRest.1
    let (ip, afterInt) := takeDigits signAndRest.2
    let fpAndRest : List Char × List Char :=
      match afterInt with
      | '.' :: rest => takeDigits rest
      | _ => ([], afterInt)
    let fp := fpAndRest.1
    if ip.isEmpty && fp.isEmpty then none
    else if fpAndRest.2.isEmpty then
      let mag : ℚ := (evalDigits ip 0 : ℚ) + (evalDigits fp 0 : ℚ) / ((10 : ℚ) ^ fp.length)
      some (if neg then -mag else mag)
    else none

/-- Models `parseFloat` applied to a JavaScript value: numbers parse to
themselves, strings are parsed, and `null`/booleans stringify to
non-numeric words, giving `NaN`. -/
def parseFloatJS : JSVal → Option ℚ
  | .num q => some q
  | .str s => parseFloatChars s.data
  | _ => none

/-- Models the `Number` coercion of a JavaScript value. -/
def toNumberJS : JSVal → Option ℚ
  | .null => some 0
  | .bool b => some (if b then 1 else 0)
  | .num q => some q
  | .str s => numberOfString s

/-- The source's numeric test on line 267:
`(n) => !isNaN(parseFloat(n)) && isFinite(n)`. -/
def isNumericJS (v : JSVal) : Bool :=
  (parseFloatJS v).isSome && (toNumberJS v).isSome

/-- Truncation of a rational toward zero: the behaviour of JavaScript
`parseInt` on a finite number argument (`parseInt(5.7) = 5`,
`parseInt(-5.7) = -5`). -/
def jsTrunc (q : ℚ) : Int :=
  q.num.sign * ((q.num.natAbs / q.den : Nat) : Int)

/-- Models the JavaScript `parseInt` primitive in base 10: skip leading
whitespace, optional sign, then a maximal digit run; no digits means
`NaN` (`none`). -/
def parseIntChars (chars : List Char) : Option Int :=
  let l := chars.dropWhile Char.isWhitespace
  let signAndRest : Bool × List Char :=
    match l with
    | '-' :: rest => (true, rest)
    | '+' :: rest => (false, rest)
    | _ => (false, l)
  let (ip, _) := takeDigits signAndRest.2
  if ip.isEmpty then none
  else some (if signAndRest.1 then -(evalDigits ip 0 : Int) else (evalDigits ip 0 : Int))

/-- `parseInt` on a JavaScript value. -/
def parseIntJS : JSVal → Option Int
  | .num q => some (jsTrunc q)
  | .str s => parseIntChars s.data
  | _ => none

/-- String rendering of an integer, as JavaScript prints integral numbers
(identical to Lean core's `ToString Int`). -/
def intRepr : Int → String
  | .ofNat m => Nat.repr m
  | .negSucc m => "-" ++ Nat.repr (m + 1)

/-- Builder-internal clause parameters: the `params` payload stored by
`_add`, one shape per call site.  `select` stores an array of column
names, `from` a single name, `limit`/`skip` the raw amount, `sort` a
fields-and-order record, `where` a field/value record and `rawWhere` the
raw clause text. -/
inductive CParams where
  | strs (cols : List String)
  | name (s : String)
  | val (v : JSVal)
  | whereP (field : String) (value : JSVal)
  | sortP (fields : List String) (order : String)
  | raw (text : String)
deriving DecidableEq

/-- One entry of the builder's clause log:
`this.query.push({ type, params })`. -/
structure Component where
  type : String
  params : CParams
deriving DecidableEq

/-- The `QueryBuilder` instance state: the constructor `bucket`, the
`query` clause log and the bound parameter list `_values`. -/
structure QueryBuilder where
  bucket : Option String
  query : List Component
  values : List JSVal
deriving DecidableEq

/-- `new QueryBuilder(bucket)`. -/
def QueryBuilder.new (bucket : Option String) : QueryBuilder :=
  ⟨bucket, [], []⟩

/-- `_add(type, params)`. -/
def QueryBuilder.add (b : QueryBuilder) (type : String) (params : CParams) : QueryBuilder :=
  { b with query := b.query ++ [⟨type, params⟩] }

/-- `select(...selected)`. -/
def QueryBuilder.select (b : QueryBuilder) (selected : List String) : QueryBuilder :=
  b.add "select" (.strs selected)

/-- `from(name)` (primed: `from` is reserved in Lean). -/
def QueryBuilder.from' (b : QueryBuilder) (name : String) : QueryBuilder :=
  b.add "from" (.name name)

/-- `limit(amount)`: rejects a missing (`null`) amount immediately. -/
def QueryBuilder.limit (b : QueryBuilder) (amount : JSVal) : Except JSError QueryBuilder :=
  if amount = .null then .error (.queryError "Amount must be specified")
  else .ok (b.add "limit" (.val amount))

/-- `skip(amount)`: rejects a missing (`null`) amount immediately. -/
def QueryBuilder.skip (b : QueryBuilder) (amount : JSVal) : Except JSError QueryBuilder :=
  if amount = .null then .error (.queryError "Amount must be specified")
  else .ok (b.add "skip" (.val amount))

/-- `sort(fields, order)`: `none` models a `null` fields argument, a left
injection a single string (wrapped into a one-element array by the
source), a right injection an array.  The source defaults `order` to
`'ASC'`; callers below pass the default explicitly. -/
def QueryBuilder.sort (b : QueryBuilder) (fields : Option (Sum String (List String)))
    (order : String) : Except JSError QueryBuilder :=
  match fields with
  | none => .error (.queryError "Required to have at least one field to sort")
  | some fs =>
    let fieldsList : List String :=
      match fs with
      | .inl s => [s]
      | .inr l => l
    if (["ASC", "DESC"].contains (jsToUpper order)) = false then
      .error (.queryError "Order must be ASC or DESC")
    else .ok (b.add "sort" (.sortP fieldsList (jsToUpper order)))

/-- `where(field, operation, value)` (primed: `where` is reserved in
Lean).  The operation string is stored directly as the clause type. -/
def QueryBuilder.where' (b : QueryBuilder) (field : String) (operation : String)
    (value : JSVal) : QueryBuilder :=
  b.add operation (.whereP field value)

/-- `rawWhere(value)`. -/
def QueryBuilder.rawWhere (b : QueryBuilder) (value : String) : QueryBuilder :=
  b.add "rawWhere" (.raw value)

/-- JavaScript string coercion of a clause payload, as a template literal
renders it: arrays join with commas, records render as
`[object Object]`.  Non-integral rationals have no exact JavaScript
printing (JavaScript uses binary floating point); that branch is
unreachable in every theorem of this development. -/
def jsValToString : JSVal → String
  | .null => "null"
  | .bool b => if b then "true" else "false"
  | .str s => s
  | .num q => if q.den = 1 then intRepr q.num else intRepr q.num ++ "/" ++ Nat.repr q.den

/-- Template-literal coercion of a stored `params` payload. -/
def jsCoerceName : CParams → String
  | .name s => s
  | .raw s => s
  | .strs l => jsJoin "," l
  | .val v => jsValToString v
  | .whereP _ _ => "[object Object]"
  | .sortP _ _ => "[object Object]"

/-- The local accumulators of `build()` after its classification loop
over `this.query` (`$select`, `$from`, `$where`, `$rawWhere`, `$limit`,
`$skip`, `$sort`).  A `some none` limit or skip is JavaScript `NaN`
(`parseInt` of an accepted but integer-free numeric string). -/
structure Collected where
  sel : Option CParams
  frm : Option CParams
  whr : List Component
  raw : Option CParams
  lim : Option (Option Int)
  skp : Option (Option Int)
  srt : List CParams
deriving DecidableEq

/-- Loop state at entry of `build()`: `$from` starts at `this.bucket`. -/
def initCollected (bucket : Option String) : Collected :=
  ⟨none, bucket.map .name, [], none, none, none, []⟩

/-- `isNumeric(component.params)`: non-`val` payloads go through string
coercion first, as JavaScript coerces objects and arrays. -/
def isNumericC : CParams → Bool
  | .val v => isNumericJS v
  | p => isNumericJS (.str (jsCoerceName p))

/-- `parseInt(component.params)` under the same coercion. -/
def parseIntC : CParams → Option Int
  | .val v => parseIntJS v
  | p => parseIntChars (jsCoerceName p).data

/-- One iteration of the classification switch of `build()` (source lines
269-313).  Unknown clause types fall through all cases and are dropped
silently. -/
def collectStep (st : Collected) (c : Component) : Except JSError Collected :=
  match c.type with
  | "from" => .ok { st with frm := some c.params }
  | "select" => .ok { st with sel := some c.params }
  | "lt" | "lte" | "gt" | "gte" | "ne" | "in" | "nin" | "or" | "eq" =>
      .ok { st with whr := st.whr ++ [c] }
  | "rawWhere" => .ok { st with raw := some c.params }
  | "limit" =>
      if isNumericC c.params then .ok { st with lim := some (parseIntC c.params) }
      else .error (.queryError "Limit parameter must be numeric")
  | "skip" =>
      if isNumericC c.params then .ok { st with skp := some (parseIntC c.params) }
      else .error (.queryError "Skip parameter must be numeric")
  | "sort" => .ok { st with srt := st.srt ++ [c.params] }
  | _ => .ok st

/-- The full classification loop of `build()`. -/
def collectLoop : List Component → Collected → Except JSError Collected
  | [], st => .ok st
  | c :: rest, st => do collectLoop rest (← collectStep st c)

/-- `_select(components, bucket)`: a missing projection defaults to `*`,
and every column is qualified with the `$from` name whenever that is
non-null.  A non-array `$select` payload makes the JavaScript
`components.map` call throw a `TypeError`. -/
def selectSection (sel : Option CParams) (frm : Option CParams) : Except JSError String := do
  let components ← match sel with
    | none => pure ["*"]
    | some (.strs l) => pure l
    | some _ => Except.error .typeError
  match frm with
  | none => .ok ("SELECT " ++ jsJoin "," components)
  | some p => .ok ("SELECT " ++ jsJoin "," (components.map (fun c => "`" ++ jsCoerceName p ++ "`." ++ c)))

/-- `_from(bucket)`. -/
def fromSection (frm : Option CParams) : String :=
  "FROM `" ++ (match frm with | some p => jsCoerceName p | none => "null") ++ "`"

/-- The comparison switch of `_where`: maps a clause type and an already
rendered value onto a statement, and throws the generic
`Error('Not implemented')` on any other type routed into the group
(reachable via the `or` clause type). -/
def cmpStatement (type field value : String) : Except JSError String :=
  match type with
  | "lt" => .ok (field ++ " < " ++ value)
  | "lte" => .ok (field ++ " <= " ++ value)
  | "gt" => .ok (field ++ " > " ++ value)
  | "gte" => .ok (field ++ " >= " ++ value)
  | "ne" => .ok (field ++ " != " ++ value)
  | "eq" => .ok (field ++ " = " ++ value)
  | "in" => .ok (field ++ " IN " ++ value)
  | "nin" => .ok (field ++ " NOT IN " ++ value)
  | _ => .error (.genericError "Not implemented")

/-- JavaScript destructuring `const { field, value } = component.params`:
on a payload that is not a field/value record both names come out
`undefined` (modelled as the name `undefined` and a null value; not
reachable from the operation sequences settled here). -/
def whereParamsOf : CParams → String × JSVal
  | .whereP f v => (f, v)
  | _ => ("undefined", JSVal.null)

/-- The statement loop of `_where`: a `null` value renders as the literal
`NULL` without binding a parameter, any other value is pushed onto
`_values` and rendered as the next `$N` placeholder. -/
def whereStatements : List Component → List JSVal → Except JSError (List JSVal × List String)
  | [], vs => .ok (vs, [])
  | c :: rest, vs =>
    let fv := whereParamsOf c.params
    let rendered : List JSVal × String :=
      match fv.2 with
      | .null => (vs, "NULL")
      | v => (vs ++ [v], "$" ++ Nat.repr (vs.length + 1))
    do
      let stmt ← cmpStatement c.type fv.1 rendered.2
      let (vs₂, stmts) ← whereStatements rest rendered.1
      .ok (vs₂, stmt :: stmts)

/-- `_where(components)` as invoked by `build()` (with the default `AND`
comparator and `WHERE` prefix). -/
def whereSection (comps : List Component) (vs : List JSVal) : Except JSError (List JSVal × String) := do
  let (vs₁, stmts) ← whereStatements comps vs
  .ok (vs₁, "WHERE " ++ jsJoin " AND " stmts)

/-- The per-group field loop of `_sort`: every field name is pushed onto
`_values` and rendered as a placeholder followed by the group's order
token. -/
def sortFields : List String → String → List JSVal → List JSVal × List String
  | [], _, vs => (vs, [])
  | f :: rest, order, vs =>
    let vs₁ := vs ++ [JSVal.str f]
    let s := "$" ++ Nat.repr vs₁.length ++ " " ++ order
    let (vs₂, ss) := sortFields rest order vs₁
    (vs₂, s :: ss)

/-- The group loop of `_sort`.  Destructuring a non-record group payload
(`const { fields, order } = group`) leaves `fields` undefined and the
subsequent `fields.map` throws a `TypeError`. -/
def sortGroupsRender : List CParams → List JSVal → Except JSError (List JSVal × List String)
  | [], vs => .ok (vs, [])
  | .sortP fields order :: rest, vs =>
    let (vs₁, ss) := sortFields fields order vs
    do
      let (vs₂, gs) ← sortGroupsRender rest vs₁
      .ok (vs₂, jsJoin ", " ss :: gs)
  | _ :: _, _ => .error .typeError

/-- `_sort(groups)`. -/
def sortSection (groups : List CParams) (vs : List JSVal) : Except JSError (List JSVal × String) := do
  let (vs₁, gs) ← sortGroupsRender groups vs
  .ok (vs₁, "ORDER BY " ++ jsJoin ", " gs)

/-- `_limit(amount)`; a `none` amount is JavaScript `NaN`. -/
def limitSection (i : Option Int) : String :=
  "LIMIT " ++ (match i with | some n => intRepr n | none => "NaN")

/-- `_skip(amount)`. -/
def skipSection (i : Option Int) : String :=
  "OFFSET " ++ (match i with | some n => intRepr n | none => "NaN")

/-- JavaScript truthiness of the `bucket` field (`null` and the empty
string are falsy). -/
def jsTruthy : Option String → Bool
  | none => false
  | some s => !(s == "")

/-- The structured-`WHERE` step of the rendering phase: no section when
no comparison clause was collected, otherwise the `_where` render (which
binds parameters). -/
def whereStage (comps : List Component) (vs₀ : List JSVal) :
    Except JSError (List JSVal × List String) :=
  if comps.isEmpty then pure (vs₀, [])
  else do
    let (vs, ws) ← whereSection comps vs₀
    pure (vs, [ws])

/-- The `ORDER BY` step of the rendering phase: no section when no sort
group was collected, otherwise the `_sort` render (which binds
parameters). -/
def sortStage (groups : List CParams) (vs : List JSVal) :
    Except JSError (List JSVal × List String) :=
  if groups.isEmpty then pure (vs, [])
  else do
    let (vs₂, ss) ← sortSection groups vs
    pure (vs₂, [ss])

/-- The section-rendering phase of `build()` (source lines 315-333): the
sections are pushed in fixed order — `SELECT`, then `FROM` when the
construction-time bucket is truthy, then the structured `WHERE` when at
least one comparison clause was collected, then the raw `WHERE` when a
raw clause was supplied, then `ORDER BY`, `LIMIT` and `OFFSET` — and
joined with single spaces. -/
def renderSections (bucket : Option String) (vs₀ : List JSVal) (st : Collected) :
    Except JSError (String × List JSVal) := do
  let selStr ← selectSection st.sel st.frm
  let vsW ← whereStage st.whr vs₀
  let vsS ← sortStage st.srt vsW.1
  let secs := [selStr]
      ++ (if jsTruthy bucket then [fromSection st.frm] else [])
      ++ vsW.2
      ++ (match st.raw with | none => [] | some p => ["WHERE " ++ jsCoerceName p])
      ++ vsS.2
      ++ (match st.lim with | none => [] | some i => [limitSection i])
      ++ (match st.skp with | none => [] | some i => [skipSection i])
  .ok (jsJoin " " secs, vsS.1)

/-- `build()` (source lines 258-334): the classification loop followed by
section rendering.  Returns the post-build builder state (parameter
binding mutates `_values`), the rendered query string and the returned
values copy. -/
def QueryBuilder.build (b : QueryBuilder) : Except JSError (QueryBuilder × String × List JSVal) := do
  let st ← collectLoop b.query (initCollected b.bucket)
  let (q, vs) ← renderSections b.bucket b.values st
  .ok ({ b with values := vs }, q, vs)

mutual

/-- Modelled from the spec: the value side of a query-object entry, as the
missing `queryinterpreter.js` consumes it — a literal, a nested mapping,
or an array (the payload of a logical group or of `$select`). -/
inductive QVal where
  | lit (v : JSVal)
  | obj (fields : QFields)
  | arr (elems : QArr)

/-- Key/value fields of a query object, in insertion order. -/
inductive QFields where
  | nil
  | cons (key : String) (value : QVal) (rest : QFields)

/-- Elements of a query array. -/
inductive QArr where
  | nil
  | cons (v : QVal) (rest : QArr)

end

mutual

/-- Modelled from the spec: one directive node inside a logical (`and`/
`or`) group, as `_buildWhere` consumes it — a field-scoped comparison, a
nested logical group, or a bare nested array denoting an implicit
sub-group. -/
inductive WherePart where
  | cmp (op : String) (field : String) (value : JSVal)
  | logical (op : String) (children : WPList)
  | group (children : WPList)

/-- A sequence of where parts. -/
inductive WPList where
  | nil
  | cons (p : WherePart) (rest : WPList)

end

/-- Concatenation of where-part sequences. -/
def WPList.append : WPList → WPList → WPList
  | .nil, l => l
  | .cons p rest, l => .cons p (rest.append l)

/-- Modelled from the spec: the root directive nodes the missing
interpreter hands to `interpret`'s replay switch.  Field comparisons and
logical groups are gathered into a single root `and` group (the only
root shape the replay switch forwards to `_buildWhere`); a bare
comparison directive at the root becomes a `rootCmp` node, which the
replay switch rejects. -/
inductive DNode where
  | selectD (cols : List String)
  | limitD (v : JSVal)
  | skipD (v : JSVal)
  | sortD (pairs : List (String × ℚ))
  | rootCmp (op : String)
  | andGroup (parts : WPList)

/-- The recognized comparison directive names. -/
def cmpOps : List String := ["lt", "lte", "gt", "gte", "ne", "eq", "in", "nin"]

/-- Recognizes a `$`-prefixed directive key and strips the prefix. -/
def dollarOp (s : String) : Option String :=
  match s.data with
  | '$' :: rest => some ⟨rest⟩
  | _ => none

/-- Stringification of a single where part inside `_buildWhere` (source
lines 185-189): a non-null value is bound as the next parameter and the
node renders through the comparison symbol table; the `toString` of
non-comparison nodes is not specified and is unreachable from the
queries settled here. -/
def stringifyPart (p : WherePart) (vs : List JSVal) : Except JSError (List JSVal × String) :=
  match p with
  | .cmp op field value =>
    let rendered : List JSVal × String :=
      match value with
      | .null => (vs, "NULL")
      | v => (vs ++ [v], "$" ++ Nat.repr (vs.length + 1))
    do
      let s ← cmpStatement op field rendered.2
      .ok (rendered.1, s)
  | _ => .error (.genericError "unmodelled part toString")

/-- The flattening loop for a bare nested array (source lines 197-200):
each subpart is stringified without recursing into nested groups. -/
def stringifyFlat : WPList → List JSVal → Except JSError (List JSVal × List String)
  | .nil, vs => .ok (vs, [])
  | .cons p rest, vs => do
    let (vs₁, s) ← stringifyPart p vs
    let (vs₂, ss) ← stringifyFlat rest vs₁
    .ok (vs₂, s :: ss)

mutual

/-- The statement loop of `_buildWhere` (source lines 195-207). -/
def buildWhereList : WPList → List JSVal → Except JSError (List JSVal × List String)
  | .nil, vs => .ok (vs, [])
  | .cons part rest, vs => do
    let (vs₁, ss₁) ← buildWherePart part vs
    let (vs₂, ss₂) ← buildWhereList rest vs₁
    .ok (vs₂, ss₁ ++ ss₂)

/-- One iteration of the `_buildWhere` loop: arrays are flattened,
`and`/`or` nodes recurse wrapped in parentheses, and anything else is
stringified. -/
def buildWherePart : WherePart → List JSVal → Except JSError (List JSVal × List String)
  | .group sub, vs => stringifyFlat sub vs
  | .logical op children, vs =>
    if op = "and" ∨ op = "or" then do
      let (vs₁, stmts) ← buildWhereList children vs
      .ok (vs₁, ["(" ++ jsJoin (" " ++ jsToUpper op ++ " ") stmts ++ ")"])
    else do
      let (vs₁, s) ← stringifyPart (.logical op children) vs
      .ok (vs₁, [s])
  | .cmp op field value, vs => do
    let (vs₁, s) ← stringifyPart (.cmp op field value) vs
    .ok (vs₁, [s])

end

/-- `_buildWhere(sub, comparator)` on an array argument, the only shape
`interpret`'s replay produces (with the default `AND` comparator). -/
def buildWhere (sub : WPList) (comparator : String) (vs : List JSVal) :
    Except JSError (List JSVal × String) := do
  let (vs₁, stmts) ← buildWhereList sub vs
  .ok (vs₁, jsJoin (" " ++ comparator ++ " ") stmts)

/-- Modelled from the spec: `$select` payload — an array of column-name
literals. -/
def selectCols : QArr → Except JSError (List String)
  | .nil => .ok []
  | .cons (.lit (.str s)) rest => do .ok (s :: (← selectCols rest))
  | .cons _ _ => .error (.genericError "unmodelled select column")

/-- Modelled from the spec: `$sort` payload — a mapping from field names
to numeric order indicators. -/
def sortPairs : QFields → Except JSError (List (String × ℚ))
  | .nil => .ok []
  | .cons k (.lit (.num q)) rest => do .ok ((k, q) :: (← sortPairs rest))
  | .cons _ _ _ => .error (.genericError "unmodelled sort order")

mutual

/-- Modelled from the spec: interpretation of the fields of a nested
mapping attached to a field name — an operator key applies to the field,
a plain literal key becomes a dotted-field equality, a further nested
mapping composes the dotted path recursively. -/
def interpretFieldObj (field : String) : QFields → Except JSError WPList
  | .nil => .ok .nil
  | .cons k v rest => do
    let head ← interpretFieldKey field k v
    let tail ← interpretFieldObj field rest
    .ok (head.append tail)

/-- Modelled from the spec: one key of a nested field mapping. -/
def interpretFieldKey (field k : String) (v : QVal) : Except JSError WPList :=
  match dollarOp k with
  | some op =>
    if cmpOps.contains op then
      match v with
      | .lit x => .ok (.cons (.cmp op field x) .nil)
      | _ => .error (.genericError "unmodelled comparison payload")
    else .error (.queryError ("Unknown query directive " ++ k))
  | none =>
    match v with
    | .lit x => .ok (.cons (.cmp "eq" (field ++ "." ++ k) x) .nil)
    | .obj sub => interpretFieldObj (field ++ "." ++ k) sub
    | .arr _ => .error (.genericError "unmodelled nested array")

/-- Modelled from the spec: the fields of one element of a logical-group
array, or the field conditions at the query root. -/
def whereFields : QFields → Except JSError WPList
  | .nil => .ok .nil
  | .cons k v rest => do
    let head ← whereKey k v
    let tail ← whereFields rest
    .ok (head.append tail)

/-- Modelled from the spec: one field-scoped condition key — a plain
field with a literal is an implicit equality, a nested mapping expands,
and a nested `$and`/`$or` preserves the nesting as a logical node. -/
def whereKey (k : String) (v : QVal) : Except JSError WPList :=
  match dollarOp k with
  | some op =>
    if op = "and" ∨ op = "or" then
      match v with
      | .arr elems => do .ok (.cons (.logical op (← logicalElems elems)) .nil)
      | _ => .error (.genericError "unmodelled logical payload")
    else if cmpOps.contains op then
      .error (.genericError "unmodelled bare comparison in group")
    else .error (.queryError ("Unknown query directive " ++ k))
  | none =>
    match v with
    | .lit x => .ok (.cons (.cmp "eq" k x) .nil)
    | .obj sub => interpretFieldObj k sub
    | .arr _ => .error (.genericError "unmodelled nested array")

/-- Modelled from the spec: the elements of a logical-group array; each
element is a mapping whose conditions form an implicit sub-group. -/
def logicalElems : QArr → Except JSError WPList
  | .nil => .ok .nil
  | .cons (.obj fields) rest => do
    .ok (.cons (.group (← whereFields fields)) (← logicalElems rest))
  | .cons _ _ => .error (.genericError "unmodelled group element")

end

/-- Modelled from the spec: dispatch of one root key of the query object:
shaping directives become root nodes, a bare comparison becomes a
`rootCmp` node, field conditions and logical groups flow into the root
`and` bundle, and an unrecognized directive key is rejected. -/
def rootKey (k : String) (v : QVal) : Except JSError (List DNode × WPList) :=
  match dollarOp k with
  | some "select" =>
    match v with
    | .arr elems => do .ok ([.selectD (← selectCols elems)], .nil)
    | _ => .error (.genericError "unmodelled select payload")
  | some "limit" =>
    match v with
    | .lit x => .ok ([.limitD x], .nil)
    | _ => .error (.genericError "unmodelled limit payload")
  | some "skip" =>
    match v with
    | .lit x => .ok ([.skipD x], .nil)
    | _ => .error (.genericError "unmodelled skip payload")
  | some "sort" =>
    match v with
    | .obj fields => do .ok ([.sortD (← sortPairs fields)], .nil)
    | _ => .error (.genericError "unmodelled sort payload")
  | some op =>
    if cmpOps.contains op then .ok ([.rootCmp op], .nil)
    else if op = "and" ∨ op = "or" then do
      .ok ([], ← whereKey k v)
    else .error (.queryError ("Unknown query directive " ++ k))
  | none => do
    .ok ([], ← whereKey k v)

/-- Modelled from the spec: the root walk of the interpreter, key by key
in insertion order. -/
def rootDirectives : QFields → Except JSError (List DNode × WPList)
  | .nil => .ok ([], .nil)
  | .cons k v rest => do
    let (ns, bs) ← rootKey k v
    let (nodes, bundle) ← rootDirectives rest
    .ok (ns ++ nodes, bs.append bundle)

/-- Modelled from the spec: the missing `queryinterpreter.js` entry
point.  Root field conditions and logical groups are bundled into a
single root `and` node, appended after the shaping nodes. -/
def queryInterpreter (q : QFields) : Except JSError (List DNode) := do
  let (nodes, bundle) ← rootDirectives q
  match bundle with
  | .nil => .ok nodes
  | b => .ok (nodes ++ [.andGroup b])

/-- The `$sort` replay loop of `interpret` (source lines 231-235): each
pair becomes a `sort` call with `ASC` for a positive indicator. -/
def sortLoop (b : QueryBuilder) : List (String × ℚ) → Except JSError QueryBuilder
  | [] => .ok b
  | (field, value) :: rest => do
    let b₁ ← b.sort (some (.inl field)) (if value > 0 then "ASC" else "DESC")
    sortLoop b₁ rest

/-- The replay switch of `interpret` (source lines 220-249): shaping
nodes replay onto the primitive operations, a root `and` group renders
through `_buildWhere` into a raw where clause, and a bare comparison at
the root throws. -/
def QueryBuilder.interpretNodes (b : QueryBuilder) : List DNode → Except JSError QueryBuilder
  | [] => .ok b
  | node :: rest => do
    let b₁ ←
      match node with
      | .selectD cols => .ok (b.select cols)
      | .skipD v => b.skip v
      | .limitD v => b.limit v
      | .sortD pairs => sortLoop b pairs
      | .andGroup parts => do
        let (vs, s) ← buildWhere parts "AND" b.values
        .ok (({ b with values := vs }).rawWhere s)
      | .rootCmp op => .error (.queryError ("Found sub directive " ++ op ++ " at root query"))
    b₁.interpretNodes rest

/-- `interpret(query)` (source lines 217-252): run the interpreter,
replay every directive, then `build()`. -/
def QueryBuilder.interpret (b : QueryBuilder) (q : QFields) :
    Except JSError (QueryBuilder × String × List JSVal) := do
  let nodes ← queryInterpreter q
  let b₁ ← b.interpretNodes nodes
  b₁.build

/-- One public builder call, for quantifying over call sequences. -/
inductive Op where
  | select (cols : List String)
  | from' (name : String)
  | limit (v : JSVal)
  | skip (v : JSVal)
  | sort (fields : Option (Sum String (List String))) (order : String)
  | where' (field : String) (op : String) (value : JSVal)
  | rawWhere (text : String)

/-- Application of one public call to a builder. -/
def applyOp (b : QueryBuilder) : Op → Except JSError QueryBuilder
  | .select cols => .ok (b.select cols)
  | .from' n => .ok (b.from' n)
  | .limit v => b.limit v
  | .skip v => b.skip v
  | .sort fs ord => b.sort fs ord
  | .where' f op v => .ok (b.where' f op v)
  | .rawWhere t => .ok (b.rawWhere t)

/-- Application of a call sequence, left to right. -/
def applyOps : QueryBuilder → List Op → Except JSError QueryBuilder
  | b, [] => .ok b
  | b, op :: rest => do applyOps (← applyOp b op) rest

/-- Reads a maximal leading digit run as a decimal number. -/
def readNatAux : List Char → Nat → Nat × List Char
  | [], acc => (acc, [])
  | c :: rest, acc =>
    if c.isDigit then readNatAux rest (acc * 10 + (c.toNat - 48))
    else (acc, c :: rest)

/-- Whether a character list starts with a digit. -/
def firstIsDigit : List Char → Bool
  | [] => false
  | c :: _ => c.isDigit

/-- Fueled scan for `$N` placeholder tokens: every `$` immediately
followed by a digit contributes the number read from the maximal digit
run, in order of occurrence. -/
def phScanF : Nat → List Char → List Nat
  | 0, _ => []
  | _ + 1, [] => []
  | fuel + 1, c :: cs =>
    if c = '$' ∧ firstIsDigit cs then
      let p := readNatAux cs 0
      p.1 :: phScanF fuel p.2
    else phScanF fuel cs

/-- The `$N` placeholder indices of a rendered query string, in order of
occurrence. -/
def placeholders (s : String) : List Nat :=
  phScanF s.data.length s.data

/-- A character list free of the `$` marker. -/
def Clean (l : List Char) : Prop := ∀ c ∈ l, c ≠ '$'

instance (l : List Char) : Decidable (Clean l) :=
  List.decidableBAll _ l

/-- The head character, if any, is not a digit: the condition for a
placeholder's digit run to terminate at a splice point. -/
def headNotDigit (l : List Char) : Prop := firstIsDigit l = false

instance (l : List Char) : Decidable (headNotDigit l) :=
  inferInstanceAs (Decidable (_ = false))

/-- Decomposition of a character list into `$`-free literal text and
placeholder tokens carrying the given indices, in order. -/
inductive PH : List Char → List Nat → Prop where
  | nil : PH [] []
  | lit {c : Char} {l : List Char} {ns : List Nat} :
      c ≠ '$' → PH l ns → PH (c :: l) ns
  | ph {d : List Char} {n : Nat} {l : List Char} {ns : List Nat} :
      d ≠ [] → (∀ c ∈ d, c.isDigit = true) → evalDigits d 0 = n →
      headNotDigit l → PH l ns → PH ('$' :: (d ++ l)) (n :: ns)

/-- Big-endian decimal digits of a natural number: the proof-side mirror
of `Nat.toDigits 10`. -/
def natDigitsBE (n : Nat) : List Char :=
  if n < 10 then [Nat.digitChar n]
  else natDigitsBE (n / 10) ++ [Nat.digitChar (n % 10)]
termination_by n
decreasing_by exact Nat.div_lt_self (by omega) (by omega)

/-- The clause-log shapes producible by the public operations when every
string that `build()` splices verbatim is `$`-free. -/
def GoodComp (c : Component) : Prop :=
  (∃ f v, c.params = .whereP f v ∧ Clean f.data) ∨
  (c.type = "select" ∧ ∃ cols, c.params = .strs cols ∧ ∀ s ∈ cols, Clean s.data) ∨
  (c.type = "from" ∧ ∃ n, c.params = .name n ∧ Clean n.data) ∨
  ((c.type = "limit" ∨ c.type = "skip") ∧ ∃ v, c.params = .val v) ∨
  (c.type = "sort" ∧ ∃ fs ord, c.params = .sortP fs ord ∧ (ord = "ASC" ∨ ord = "DESC"))

/-- Call arguments whose interpolated strings are free of `$`. -/
def OpClean : Op → Prop
  | .select cols => ∀ s ∈ cols, Clean s.data
  | .from' n => Clean n.data
  | .where' f _ _ => Clean f.data
  | _ => True

/-- Excludes the verbatim-splicing `rawWhere` call. -/
def NonRaw : Op → Prop
  | .rawWhere _ => False
  | _ => True

/-- A `$`-free bucket name (or no bucket). -/
def CleanBucket : Option String → Prop
  | none => True
  | some s => Clean s.data

instance : (op : Op) → Decidable (OpClean op)
  | .select cols => inferInstanceAs (Decidable (∀ s ∈ cols, Clean s.data))
  | .from' n => inferInstanceAs (Decidable (Clean n.data))
  | .limit _ => inferInstanceAs (Decidable True)
  | .skip _ => inferInstanceAs (Decidable True)
  | .sort _ _ => inferInstanceAs (Decidable True)
  | .where' f _ _ => inferInstanceAs (Decidable (Clean f.data))
  | .rawWhere _ => inferInstanceAs (Decidable True)

instance : (op : Op) → Decidable (NonRaw op)
  | .select _ => inferInstanceAs (Decidable True)
  | .from' _ => inferInstanceAs (Decidable True)
  | .limit _ => inferInstanceAs (Decidable True)
  | .skip _ => inferInstanceAs (Decidable True)
  | .sort _ _ => inferInstanceAs (Decidable True)
  | .where' _ _ _ => inferInstanceAs (Decidable True)
  | .rawWhere _ => inferInstanceAs (Decidable False)

instance : (bk : Option String) → Decidable (CleanBucket bk)
  | none => inferInstanceAs (Decidable True)
  | some s => inferInstanceAs (Decidable (Clean s.data))

/-- Every clause type with a case in the classification switch of
`build()`: any other type string falls through and is dropped. -/
def recognizedTypes : List String :=
  ["from", "select", "lt", "lte", "gt", "gte", "ne", "in", "nin", "or", "eq",
    "rawWhere", "limit", "skip", "sort"]

/-- The clause types whose rendering binds parameters (mutates
`_values`): the comparison group and `sort`. -/
def bindingTypes : List String :=
  ["lt", "lte", "gt", "gte", "ne", "in", "nin", "or", "eq", "sort"]

/-- The clause types collected into the structured `WHERE` group by the
classification switch. -/
def whereTypeTags : List String :=
  ["lt", "lte", "gt", "gte", "ne", "in", "nin", "or", "eq"]

/-- Shape invariant on the classification accumulators: every payload a
`build()` over a `$`-clean, `rawWhere`-free call sequence can collect.
Spliced strings are `$`-free, the raw slot can only hold a field/value
record (whose coercion is the fixed text `[object Object]`), and sort
groups carry a validated order token. -/
def StOK (st : Collected) : Prop :=
  (∀ p, st.sel = some p →
    (∃ cols, p = .strs cols ∧ ∀ s ∈ cols, Clean s.data) ∨ (∃ f v, p = .whereP f v)) ∧
  (∀ p, st.frm = some p →
    (∃ n, p = .name n ∧ Clean n.data) ∨ (∃ f v, p = .whereP f v)) ∧
  (∀ c ∈ st.whr, Clean (whereParamsOf c.params).1.data) ∧
  (∀ p, st.raw = some p → ∃ f v, p = .whereP f v) ∧
  (∀ p ∈ st.srt, ∀ fs ord, p = .sortP fs ord → (ord = "ASC" ∨ ord = "DESC"))

/-- A concrete call sequence mixing a bound comparison clause, a raw
clause and a null-valued comparison, used to exercise the rendering
order with both a structured and a raw `WHERE`. -/
def sampleMixedBuilder : QueryBuilder :=
  QueryBuilder.where'
    (QueryBuilder.rawWhere
      (QueryBuilder.where' (QueryBuilder.new (some "b")) "x" "eq" (JSVal.num 1))
      "y = 2")
    "z" "lt" JSVal.null

/-! ### Helper lemmas -/

theorem jsBind_ok {α β : Type} (a : α) (f : α → Except JSError β) :
    (Except.ok a >>= f) = f a := rfl

theorem jsBind_error {α β : Type} (e : JSError) (f : α → Except JSError β) :
    ((Except.error e : Except JSError α) >>= f) = Except.error e := rfl

theorem jsBind_ok' {α β : Type} (a : α) (f : α → Except JSError β) :
    (Except.ok a : Except JSError α).bind f = f a := rfl

theorem jsBind_error' {α β : Type} (e : JSError) (f : α → Except JSError β) :
    (Except.error e : Except JSError α).bind f = Except.error e := rfl

theorem jsMap_ok {α β : Type} (a : α) (f : α → β) :
    (Except.ok a : Except JSError α).map f = Except.ok (f a) := rfl

theorem jsMap_error {α β : Type} (e : JSError) (f : α → β) :
    (Except.error e : Except JSError α).map f = Except.error e := rfl

theorem jsPure {α : Type} (a : α) : (pure a : Except JSError α) = Except.ok a := rfl

theorem collectLoop_append (l₁ l₂ : List Component) (st : Collected) :
    collectLoop (l₁ ++ l₂) st = (collectLoop l₁ st).bind (fun st₁ => collectLoop l₂ st₁) := by
  induction l₁ generalizing st with
  | nil => simp [collectLoop, jsBind_ok']
  | cons c rest ih =>
    simp only [List.cons_append, collectLoop]
    cases collectStep st c <;>
      simp [jsBind_ok, jsBind_error, jsBind_ok', jsBind_error', ih]

theorem build_snd (b : QueryBuilder) :
    b.build.map Prod.snd
      = (collectLoop b.query (initCollected b.bucket)).bind
          (fun st => renderSections b.bucket b.values st) := by
  unfold QueryBuilder.build
  cases h : collectLoop b.query (initCollected b.bucket) with
  | error e => simp [jsBind_error, jsBind_error', Except.map]
  | ok st =>
    cases h₂ : renderSections b.bucket b.values st with
    | error e => simp [jsBind_ok, jsBind_error, jsBind_ok', jsBind_error', Except.map, h₂]
    | ok qv =>
      cases qv
      simp [jsBind_ok, jsBind_ok', Except.map, h₂]

set_option maxHeartbeats 2000000 in
theorem collectStep_keeps {st : Collected} {c : Component} (hc1 : c.type ∉ bindingTypes)
    {st₁ : Collected} (hstep : collectStep st c = .ok st₁) :
    st₁.whr = st.whr ∧ st₁.srt = st.srt := by
  unfold collectStep at hstep
  split at hstep <;>
    first
      | (cases hstep; exact ⟨rfl, rfl⟩)
      | (split at hstep <;> cases hstep <;> exact ⟨rfl, rfl⟩)
      | (exact absurd (by simp_all [bindingTypes]) hc1)

theorem collectLoop_no_binding {l : List Component} {st st' : Collected}
    (h : ∀ c ∈ l, c.type ∉ bindingTypes)
    (hc : collectLoop l st = .ok st') : st'.whr = st.whr ∧ st'.srt = st.srt := by
  induction l generalizing st with
  | nil =>
    simp only [collectLoop] at hc
    cases hc
    exact ⟨rfl, rfl⟩
  | cons c rest ih =>
    have hc1 : c.type ∉ bindingTypes := h c (List.mem_cons_self c rest)
    have hrest : ∀ c' ∈ rest, c'.type ∉ bindingTypes :=
      fun c' hc' => h c' (List.mem_cons_of_mem c hc')
    simp only [collectLoop] at hc
    cases hstep : collectStep st c with
    | error e => rw [hstep] at hc; simp [jsBind_error] at hc
    | ok st₁ =>
      rw [hstep, jsBind_ok] at hc
      have key := collectStep_keeps hc1 hstep
      have := ih hrest hc
      exact ⟨key.1 ▸ this.1, key.2 ▸ this.2⟩

theorem renderSections_no_binding {bk : Option String} {vs₀ : List JSVal} {st : Collected}
    (hwhr : st.whr = []) (hsrt : st.srt = []) {q : String} {vs : List JSVal}
    (h : renderSections bk vs₀ st = .ok (q, vs)) : vs = vs₀ := by
  unfold renderSections at h
  cases hsel : selectSection st.sel st.frm with
  | error e => rw [hsel] at h; simp [jsBind_error] at h
  | ok s =>
    rw [hsel] at h
    rw [jsBind_ok] at h
    simp only [hwhr, hsrt, List.isEmpty_nil, if_true, jsPure, jsBind_ok] at h
    rcases hraw : st.raw with _ | p <;> rcases hlim : st.lim with _ | i <;>
      rcases hskp : st.skp with _ | j <;>
        (rw [hraw, hlim, hskp] at h; cases h; rfl)

/-! ### C2 -/

/-- C2 (amended): a second `build()` returns the identical
`{query, values}` pair only when the log contains no parameter-binding
clauses (no comparison and no sort entries); then the builder state is
unchanged by `build()` and the second call reproduces the first. -/
theorem build_idempotent_without_bound_params (b : QueryBuilder)
    (h : ∀ c ∈ b.query, c.type ∉ bindingTypes)
    (b' : QueryBuilder) (out : String × List JSVal)
    (hb : b.build = .ok (b', out)) :
    b' = b ∧ b'.build = .ok (b', out) := by
  have hb' := hb
  unfold QueryBuilder.build at hb'
  cases hst : collectLoop b.query (initCollected b.bucket) with
  | error e => rw [hst] at hb'; simp [jsBind_error] at hb'
  | ok st =>
    rw [hst, jsBind_ok] at hb'
    cases hrd : renderSections b.bucket b.values st with
    | error e => rw [hrd] at hb'; simp [jsBind_error] at hb'
    | ok qv =>
      rw [hrd, jsBind_ok] at hb'
      obtain ⟨q, vs⟩ := qv
      have hcol := collectLoop_no_binding h hst
      have hvs : vs = b.values :=
        renderSections_no_binding (hcol.1.trans rfl) (hcol.2.trans rfl) hrd
      cases hb'
      subst hvs
      refine ⟨rfl, ?_⟩
      exact hb

/-- C2 witness: a builder whose log holds a single `limit` clause builds
to the same pair twice. -/
theorem build_idempotent_without_bound_params_witness :
    (∀ c ∈ (⟨none, [⟨"limit", .val (.num (mkRat 5 1))⟩], []⟩ : QueryBuilder).query,
        c.type ∉ bindingTypes) ∧
    ((⟨none, [⟨"limit", .val (.num (mkRat 5 1))⟩], []⟩ : QueryBuilder)
        = (⟨none, [⟨"limit", .val (.num (mkRat 5 1))⟩], []⟩ : QueryBuilder) ∧
      (QueryBuilder.build ⟨none, [⟨"limit", .val (.num (mkRat 5 1))⟩], []⟩)
        = .ok (⟨none, [⟨"limit", .val (.num (mkRat 5 1))⟩], []⟩, "SELECT * LIMIT 5", [])) := by
  constructor
  · intro c hc
    rw [List.mem_singleton] at hc
    subst hc
    decide
  · exact build_idempotent_without_bound_params _
      (by intro c hc; rw [List.mem_singleton] at hc; subst hc; decide) _ _ rfl

/-- C2 counterexample: after a first `build()` bound a parameter, a
second `build()` re-binds it — the values list doubles and the
placeholder index shifts, so the pair is not identical. -/
theorem rebuild_shifts_placeholders :
    (QueryBuilder.where' (QueryBuilder.new none) "x" "eq" (.num 1)).build
      = .ok (⟨none, [⟨"eq", .whereP "x" (.num 1)⟩], [.num 1]⟩,
          "SELECT * WHERE x = $1", [.num 1]) ∧
    (QueryBuilder.build ⟨none, [⟨"eq", .whereP "x" (.num 1)⟩], [.num 1]⟩).map Prod.snd
      = .ok ("SELECT * WHERE x = $2", [.num 1, .num 1]) ∧
    ("SELECT * WHERE x = $1" : String) ≠ "SELECT * WHERE x = $2" :=
  ⟨rfl, rfl, by decide⟩

/-! ### C3 -/

/-- C3 (amended): `interpret({one: 1})` on a fresh builder bound to
bucket `b` yields the query ``SELECT `b`.* FROM `b` WHERE one = $1``
with values `[1]` — the default `*` projection is qualified with the
bucket name whenever a bucket is bound. -/
theorem interpret_one_eq_qualified_star :
    ((QueryBuilder.new (some "b")).interpret (.cons "one" (.lit (.num 1)) .nil)).map Prod.snd
      = .ok ("SELECT `b`.* FROM `b` WHERE one = $1", [.num 1]) := rfl

/-- C3 counterexample: the rendered query qualifies the default `*` with
the bucket name, so it is not the bare-star string the claim asserts. -/
theorem interpret_one_eq_not_bare_star :
    ((QueryBuilder.new (some "b")).interpret (.cons "one" (.lit (.num 1)) .nil)).map Prod.snd
      = .ok ("SELECT `b`.* FROM `b` WHERE one = $1", [.num 1]) ∧
    ("SELECT `b`.* FROM `b` WHERE one = $1" : String) ≠ "SELECT * FROM `b` WHERE one = $1" :=
  ⟨rfl, by decide⟩

/-! ### C4 -/

/-- C4 (amended): `where(field, op, value)` with an unrecognized `op`
does not generally fail.  An `op` outside the full set of recognized
clause types is silently dropped by `build()`, which returns normally
without the clause; only `op = 'or'` is routed into the `WHERE` group
and fails at `build()` time with the generic `Not implemented` error,
distinct from the `QueryError` family. -/
theorem where_unknown_op_behaviour :
    (∀ (f : String) (v : JSVal),
      ((QueryBuilder.new none).where' f "or" v).build
        = .error (.genericError "Not implemented")) ∧
    (∀ (f op : String) (v : JSVal), op ∉ recognizedTypes →
      ((QueryBuilder.new none).where' f op v).build.map Prod.snd = .ok ("SELECT *", [])) := by
  constructor
  · intro f v
    cases v <;> rfl
  · intro f op v h
    have hstep : collectStep (initCollected none) ⟨op, .whereP f v⟩ = .ok (initCollected none) := by
      unfold collectStep
      split <;> simp_all [recognizedTypes]
    rw [build_snd]
    simp only [QueryBuilder.where', QueryBuilder.new, QueryBuilder.add, List.nil_append]
    simp only [collectLoop, hstep, jsBind_ok, jsBind_ok']
    rfl

/-- C4 witness: the operator `foo` is outside the recognized set and its
clause is dropped, with `build()` returning normally. -/
theorem where_unknown_op_behaviour_witness :
    ("foo" ∉ recognizedTypes) ∧
    (QueryBuilder.where' (QueryBuilder.new none) "f" "foo" (.num 1)).build.map Prod.snd
      = .ok ("SELECT *", []) :=
  ⟨by decide, where_unknown_op_behaviour.2 "f" "foo" (.num 1) (by decide)⟩

/-- C4 counterexample: for `op = "foo"` (outside the comparison set) the
claimed failure does not happen — `build()` returns normally and the
clause is silently dropped. -/
theorem where_unknown_op_silently_dropped :
    ("foo" ∉ cmpOps) ∧
    (QueryBuilder.where' (QueryBuilder.new none) "f" "foo" (.num 1)).build.map Prod.snd
      = .ok ("SELECT *", []) :=
  ⟨by decide, rfl⟩

/-! ### C6 -/

/-- C6: a bare comparison directive at the query root is rejected by
`interpret` with a `QueryError` naming the offending directive. -/
theorem root_comparison_rejected (op : String) (h : op ∈ cmpOps) :
    (QueryBuilder.new none).interpret (.cons ("$" ++ op) (.lit (.num 5)) .nil)
      = .error (.queryError ("Found sub directive " ++ op ++ " at root query")) := by
  fin_cases h <;> rfl

/-- C6 witness: `interpret({$lt: 5})` fails naming `lt`. -/
theorem root_comparison_rejected_witness :
    ("lt" ∈ cmpOps) ∧
    (QueryBuilder.new none).interpret (.cons ("$" ++ "lt") (.lit (.num 5)) .nil)
      = .error (.queryError ("Found sub directive " ++ "lt" ++ " at root query")) :=
  ⟨by decide, root_comparison_rejected "lt" (by decide)⟩

/-! ### C7 -/

/-- C7: `limit(null)` and `skip(null)` fail immediately with the
builder's `QueryError`; a non-numeric `limit("abc")` is accepted by
`limit()` itself and fails at `build()` time with a `QueryError`; a
numeric amount is truncated toward zero (5.7 renders as `LIMIT 5`,
-5.7 as `LIMIT -5`), not rounded. -/
theorem limit_skip_validation :
    (∀ b : QueryBuilder, b.limit .null = .error (.queryError "Amount must be specified")) ∧
    (∀ b : QueryBuilder, b.skip .null = .error (.queryError "Amount must be specified")) ∧
    ((QueryBuilder.new none).limit (.str "abc")
      = .ok ⟨none, [⟨"limit", .val (.str "abc")⟩], []⟩) ∧
    (QueryBuilder.build ⟨none, [⟨"limit", .val (.str "abc")⟩], []⟩
      = .error (.queryError "Limit parameter must be numeric")) ∧
    ((QueryBuilder.build ⟨none, [⟨"limit", .val (.num (mkRat 57 10))⟩], []⟩).map Prod.snd
      = .ok ("SELECT * LIMIT 5", [])) ∧
    ((QueryBuilder.build ⟨none, [⟨"limit", .val (.num (mkRat (-57) 10))⟩], []⟩).map Prod.snd
      = .ok ("SELECT * LIMIT -5", [])) :=
  ⟨fun _ => rfl, fun _ => rfl, rfl, rfl, rfl, rfl⟩

/-! ### C8 -/

/-- C8: `sort('name')` with the source's default order records ascending
order, renders as `ORDER BY $1 ASC`, and binds the field name as the
first value: the sort field is parameterized, not interpolated, so the
rendered string is independent of the field name. -/
theorem sort_parameterizes_field (name : String) :
    (QueryBuilder.new none).sort (some (.inl name)) "ASC"
      = .ok ⟨none, [⟨"sort", .sortP [name] "ASC"⟩], []⟩ ∧
    (QueryBuilder.build ⟨none, [⟨"sort", .sortP [name] "ASC"⟩], []⟩).map Prod.snd
      = .ok ("SELECT * ORDER BY $1 ASC", [.str name]) := by
  refine ⟨rfl, ?_⟩
  simp [QueryBuilder.build, collectLoop, collectStep, initCollected, selectSection, sortSection,
    sortGroupsRender, sortFields, jsJoin, renderSections, whereStage, sortStage, jsBind_ok,
    jsBind_error, jsPure, jsTruthy, Except.map, jsBind_ok', jsBind_error']
  rfl

/-! ### C9 -/

/-- C9 (amended): `from(n)` overrides the name used in rendering — both
the `SELECT` qualification and the `FROM` section use `n` — but the
`FROM` section is emitted only when the construction-time bucket is
truthy. -/
theorem from_overrides_rendered_name (s n : String) (h : jsTruthy (some s) = true) :
    ((QueryBuilder.new (some s)).from' n).build.map Prod.snd
      = .ok ("SELECT `" ++ n ++ "`.* FROM `" ++ n ++ "`", []) := by
  rw [build_snd]
  simp [QueryBuilder.from', QueryBuilder.new, QueryBuilder.add, collectLoop, collectStep,
    initCollected, renderSections, whereStage, sortStage, selectSection, fromSection,
    jsCoerceName, jsJoin, h, jsBind_ok, jsBind_ok', jsPure]
  apply String.ext
  simp [String.data_append]

/-- C9 witness: on a builder constructed with bucket `b`, `from('n')`
renders ``SELECT `n`.* FROM `n``` — `n` overrides `b`. -/
theorem from_overrides_rendered_name_witness :
    (jsTruthy (some "b") = true) ∧
    (QueryBuilder.from' (QueryBuilder.new (some "b")) "n").build.map Prod.snd
      = .ok ("SELECT `" ++ "n" ++ "`.* FROM `" ++ "n" ++ "`", []) :=
  ⟨by decide, from_overrides_rendered_name "b" "n" (by decide)⟩

/-- C9 counterexample: on a builder constructed with no bucket,
`from('n')` qualifies `SELECT` with `n` but emits no `FROM` section at
all, so the rendered query does not contain ``FROM `n``. -/
theorem from_without_bucket_emits_no_from :
    (QueryBuilder.from' (QueryBuilder.new none) "n").build.map Prod.snd = .ok ("SELECT `n`.*", []) ∧
    ¬ ("FROM `n`".data <:+: "SELECT `n`.*".data) :=
  ⟨rfl, by decide⟩

/-! ### C10 -/

/-- C10: when `rawWhere` is called more than once before `build()`, the
later raw clause overwrites the earlier one in the classification loop:
the build output is identical to that of a builder that only received
the last raw clause, so at most one raw `WHERE` segment is emitted and
all earlier raw clauses are dropped. -/
theorem rawWhere_last_wins (b : QueryBuilder) (t₁ t₂ : String) :
    ((b.rawWhere t₁).rawWhere t₂).build.map Prod.snd
      = (b.rawWhere t₂).build.map Prod.snd := by
  rw [build_snd, build_snd]
  simp only [QueryBuilder.rawWhere, QueryBuilder.add]
  rw [collectLoop_append, collectLoop_append, collectLoop_append]
  cases hst : collectLoop b.query (initCollected b.bucket) <;>
    simp [jsBind_ok', jsBind_error', collectLoop, collectStep, jsBind_ok, jsBind_error]

/-! ### Decimal digits and the placeholder decomposition -/

theorem digitChar_isDigit {d : Nat} (h : d < 10) : (Nat.digitChar d).isDigit = true := by
  interval_cases d <;> decide

theorem digitChar_val {d : Nat} (h : d < 10) : (Nat.digitChar d).toNat - 48 = d := by
  interval_cases d <;> decide

theorem isDigit_ne_dollar {c : Char} (h : c.isDigit = true) : c ≠ '$' := by
  intro he
  subst he
  exact absurd h (by decide)

theorem natDigitsBE_ne_nil (n : Nat) : natDigitsBE n ≠ [] := by
  rw [natDigitsBE]
  split <;> simp

theorem natDigitsBE_digits (n : Nat) : ∀ c ∈ natDigitsBE n, c.isDigit = true := by
  induction n using Nat.strong_induction_on with
  | _ n ih =>
    rw [natDigitsBE]
    split
    · intro c hc
      rw [List.mem_singleton] at hc
      subst hc
      exact digitChar_isDigit (by omega)
    · intro c hc
      rw [List.mem_append] at hc
      rcases hc with hc | hc
      · exact ih (n / 10) (Nat.div_lt_self (by omega) (by omega)) c hc
      · rw [List.mem_singleton] at hc
        subst hc
        exact digitChar_isDigit (Nat.mod_lt _ (by omega))

theorem natDigitsBE_clean (n : Nat) : Clean (natDigitsBE n) :=
  fun c hc => isDigit_ne_dollar (natDigitsBE_digits n c hc)

theorem evalDigits_append (l : List Char) (c : Char) (acc : Nat) :
    evalDigits (l ++ [c]) acc = (evalDigits l acc) * 10 + (c.toNat - 48) := by
  induction l generalizing acc with
  | nil => rfl
  | cons x xs ih => simpa [evalDigits] using ih (acc * 10 + (x.toNat - 48))

theorem evalDigits_natDigitsBE (n : Nat) :
    ∀ acc, evalDigits (natDigitsBE n) acc = acc * 10 ^ (natDigitsBE n).length + n := by
  induction n using Nat.strong_induction_on with
  | _ n ih =>
    intro acc
    rw [natDigitsBE]
    split
    · next h =>
      simp [evalDigits, digitChar_val h]
    · next h =>
      rw [evalDigits_append, ih (n / 10) (Nat.div_lt_self (by omega) (by omega)) acc,
        digitChar_val (Nat.mod_lt _ (by omega)), List.length_append]
      simp only [List.length_singleton, pow_succ]
      have hdm := Nat.div_add_mod n 10
      ring_nf
      omega

theorem toDigitsCore_eq : ∀ (fuel n : Nat) (ds : List Char), n < fuel →
    Nat.toDigitsCore 10 fuel n ds = natDigitsBE n ++ ds := by
  intro fuel
  induction fuel with
  | zero => intro n ds h; omega
  | succ f ih =>
    intro n ds h
    simp only [Nat.toDigitsCore]
    split
    · next h0 =>
      rw [natDigitsBE, if_pos (by omega : n < 10), Nat.mod_eq_of_lt (by omega)]
      rfl
    · next h0 =>
      rw [natDigitsBE, if_neg (by omega : ¬ n < 10), ih (n / 10) _ (by omega)]
      simp

theorem natRepr_data (n : Nat) : (Nat.repr n).data = natDigitsBE n := by
  show (Nat.toDigits 10 n).asString.data = _
  rw [Nat.toDigits, toDigitsCore_eq (n + 1) n [] (Nat.lt_succ_self n)]
  simp [List.asString]

theorem readNatAux_digits : ∀ (d : List Char), (∀ c ∈ d, c.isDigit = true) →
    ∀ (l : List Char), headNotDigit l → ∀ acc, readNatAux (d ++ l) acc = (evalDigits d acc, l) := by
  intro d
  induction d with
  | nil =>
    intro _ l hl acc
    cases l with
    | nil => rfl
    | cons c rest =>
      have hc : c.isDigit = false := hl
      simp [readNatAux, hc, evalDigits]
  | cons c cs ih =>
    intro hd l hl acc
    have hc : c.isDigit = true := hd c (List.mem_cons_self _ _)
    simp only [List.cons_append, readNatAux, hc, if_true, List.append_eq]
    rw [ih (fun x hx => hd x (List.mem_cons_of_mem _ hx)) l hl]
    simp [evalDigits]

theorem ph_scanF {l : List Char} {ns : List Nat} (h : PH l ns) :
    ∀ fuel, l.length ≤ fuel → phScanF fuel l = ns := by
  induction h with
  | nil => intro fuel _; cases fuel <;> rfl
  | lit hc hp ih =>
    intro fuel hlen
    cases fuel with
    | zero => simp at hlen
    | succ f =>
      simp only [phScanF]
      rw [if_neg (fun hcontra => hc hcontra.1)]
      exact ih f (by simpa using hlen)
  | ph hne hdig heval hterm hp ih =>
    rename_i d n l' ns'
    intro fuel hlen
    cases fuel with
    | zero => simp at hlen
    | succ f =>
      have hd1 : 1 ≤ d.length := List.length_pos.mpr hne
      have hlen' : l'.length ≤ f := by
        simp only [List.length_cons, List.length_append] at hlen
        omega
      simp only [phScanF]
      rw [if_pos]
      · rw [readNatAux_digits d hdig l' hterm 0]
        show evalDigits d 0 :: phScanF f l' = n :: ns'
        rw [heval, ih f hlen']
      · refine ⟨by simp, ?_⟩
        cases d with
        | nil => exact absurd rfl hne
        | cons c₁ cs => simpa [firstIsDigit] using hdig c₁ (List.mem_cons_self _ _)

theorem headNotDigit_append {a b : List Char} (ha : headNotDigit a) (hb : headNotDigit b) :
    headNotDigit (a ++ b) := by
  cases a with
  | nil => simpa using hb
  | cons c rest => exact ha

theorem headNotDigit_append_left {a : List Char} (ha : headNotDigit a) (hne : a ≠ [])
    (b : List Char) : headNotDigit (a ++ b) := by
  cases a with
  | nil => exact absurd rfl hne
  | cons c rest => exact ha

theorem PH_append {a : List Char} {ns : List Nat} (h : PH a ns) :
    ∀ {b : List Char} {ms : List Nat}, PH b ms → headNotDigit b → PH (a ++ b) (ns ++ ms) := by
  induction h with
  | nil => intro b ms hb _; simpa using hb
  | lit hc hp ih =>
    intro b ms hb hh
    simp only [List.cons_append]
    exact PH.lit hc (ih hb hh)
  | ph hne hdig heval hterm hp ih =>
    intro b ms hb hh
    simp only [List.cons_append, List.append_assoc]
    exact PH.ph hne hdig heval (headNotDigit_append hterm hh) (ih hb hh)

theorem PH_clean {l : List Char} (h : Clean l) : PH l [] := by
  induction l with
  | nil => exact PH.nil
  | cons c rest ih =>
    exact PH.lit (h c (List.mem_cons_self _ _))
      (ih (fun x hx => h x (List.mem_cons_of_mem _ hx)))

theorem PH_append_clean {a : List Char} (ha : Clean a) {b : List Char} {ms : List Nat}
    (hb : PH b ms) : PH (a ++ b) ms := by
  induction a with
  | nil => simpa using hb
  | cons c rest ih =>
    simp only [List.cons_append]
    exact PH.lit (ha c (List.mem_cons_self _ _))
      (ih (fun x hx => ha x (List.mem_cons_of_mem _ hx)))

theorem PH_placeholder_then (k : Nat) {l : List Char} (hterm : headNotDigit l) (hcl : Clean l) :
    PH ('$' :: ((Nat.repr k).data ++ l)) [k] := by
  rw [natRepr_data]
  exact @PH.ph (natDigitsBE k) k l [] (natDigitsBE_ne_nil k) (natDigitsBE_digits k)
    (by simpa using evalDigits_natDigitsBE k 0) hterm (PH_clean hcl)

theorem Clean_append {a b : List Char} (ha : Clean a) (hb : Clean b) : Clean (a ++ b) := by
  intro c hc
  rcases List.mem_append.mp hc with h | h
  exacts [ha c h, hb c h]

theorem Clean_jsJoin {sep : String} (hs : Clean sep.data) {l : List String}
    (hl : ∀ s ∈ l, Clean s.data) : Clean (jsJoin sep l).data := by
  induction l with
  | nil => intro c hc; simp [jsJoin] at hc
  | cons s rest ih =>
    cases rest with
    | nil => exact hl s (List.mem_cons_self _ _)
    | cons t ts =>
      have h1 := hl s (List.mem_cons_self _ _)
      have h2 := ih (fun x hx => hl x (List.mem_cons_of_mem _ hx))
      simp only [jsJoin, String.data_append]
      exact Clean_append (Clean_append h1 hs) h2

theorem PH_join (sep : String) (hc : Clean sep.data) (hh : headNotDigit sep.data)
    (hne : sep.data ≠ []) :
    ∀ (items : List (String × List Nat)), (∀ it ∈ items, PH it.1.data it.2) →
    PH (jsJoin sep (items.map Prod.fst)).data (items.map Prod.snd).flatten := by
  intro items
  induction items with
  | nil => intro _; exact PH.nil
  | cons x rest ih =>
    intro hall
    cases rest with
    | nil => simpa using hall x (List.mem_cons_self _ _)
    | cons y ys =>
      have hx := hall x (List.mem_cons_self _ _)
      have hr := ih (fun it hit => hall it (List.mem_cons_of_mem _ hit))
      simp only [List.map_cons, jsJoin, String.data_append, List.flatten] at hr ⊢
      rw [List.append_assoc]
      exact PH_append hx (PH_append_clean hc hr) (headNotDigit_append_left hh hne _)

/-! ### Placeholder structure of the rendered sections -/

theorem PH_dollar_repr (k : Nat) : PH ("$" ++ Nat.repr k).data [k] := by
  have h0 := @PH_placeholder_then k [] (by decide) (fun c hc => absurd hc (List.not_mem_nil c))
  rw [List.append_nil] at h0
  exact h0

theorem cmpStatement_ok_shape {t f v s : String} (h : cmpStatement t f v = .ok s) :
    ∃ mid : String, s = f ++ mid ++ v ∧ Clean mid.data ∧ headNotDigit mid.data ∧
      mid.data ≠ [] := by
  unfold cmpStatement at h
  split at h <;>
    first
      | (cases h; exact ⟨_, rfl, by decide, by decide, by decide⟩)
      | cases h

theorem whereStatements_spec :
    ∀ (comps : List Component) (vs : List JSVal),
      (∀ c ∈ comps, Clean (whereParamsOf c.params).1.data) →
      ∀ {vs' : List JSVal} {stmts : List String},
        whereStatements comps vs = .ok (vs', stmts) →
        ∃ (Δ : List JSVal) (pairs : List (String × List Nat)),
          vs' = vs ++ Δ ∧ stmts = pairs.map Prod.fst ∧
          (pairs.map Prod.snd).flatten = List.range' (vs.length + 1) Δ.length ∧
          ∀ it ∈ pairs, PH it.1.data it.2 := by
  intro comps
  induction comps with
  | nil =>
    intro vs h vs' stmts hw
    simp only [whereStatements] at hw
    cases hw
    exact ⟨[], [], by simp, rfl, by simp, by simp⟩
  | cons c rest ih =>
    intro vs h vs' stmts hw
    have hcf : Clean (whereParamsOf c.params).1.data := h c (List.mem_cons_self _ _)
    have hrest := fun x hx => h x (List.mem_cons_of_mem c hx)
    simp only [whereStatements] at hw
    cases hv : (whereParamsOf c.params).2 with
    | null =>
      simp only [hv] at hw
      cases hst : cmpStatement c.type (whereParamsOf c.params).1 "NULL" with
      | error e => rw [hst] at hw; simp [jsBind_error] at hw
      | ok stmt =>
        rw [hst, jsBind_ok] at hw
        cases hws : whereStatements rest vs with
        | error e => rw [hws] at hw; simp [jsBind_error] at hw
        | ok p =>
          obtain ⟨vs₂, stmts'⟩ := p
          rw [hws, jsBind_ok] at hw
          cases hw
          obtain ⟨Δ, pairs, hΔ, hstmts, hrange, hPH⟩ := ih vs hrest hws
          obtain ⟨mid, hmid, hmidclean, hmidhead, hmidne⟩ := cmpStatement_ok_shape hst
          refine ⟨Δ, (stmt, []) :: pairs, hΔ, by simp [hstmts], by simpa using hrange, ?_⟩
          intro it hit
          rcases List.mem_cons.mp hit with rfl | hit
          · rw [hmid]

            simp only [String.data_append]
            exact PH_clean (Clean_append (Clean_append hcf hmidclean) (by decide))
          · exact hPH it hit
    | bool bv =>
      simp only [hv] at hw
      cases hst : cmpStatement c.type (whereParamsOf c.params).1
          ("$" ++ Nat.repr (vs.length + 1)) with
      | error e => rw [hst] at hw; simp [jsBind_error] at hw
      | ok stmt =>
        rw [hst, jsBind_ok] at hw
        cases hws : whereStatements rest (vs ++ [JSVal.bool bv]) with
        | error e => rw [hws] at hw; simp [jsBind_error] at hw
        | ok p =>
          obtain ⟨vs₂, stmts'⟩ := p
          rw [hws, jsBind_ok] at hw
          cases hw
          obtain ⟨Δ, pairs, hΔ, hstmts, hrange, hPH⟩ := ih (vs ++ [JSVal.bool bv]) hrest hws
          obtain ⟨mid, hmid, hmidclean, hmidhead, hmidne⟩ := cmpStatement_ok_shape hst
          refine ⟨JSVal.bool bv :: Δ, (stmt, [vs.length + 1]) :: pairs,
            by simpa using hΔ, by simp [hstmts], ?_, ?_⟩
          · simp only [List.map_cons, List.flatten]
            rw [hrange]
            simp only [List.length_append, List.length_singleton, List.length_cons]
            rw [List.range'_succ]
            simp [Nat.add_comm, Nat.add_assoc, Nat.add_left_comm]
          · intro it hit
            rcases List.mem_cons.mp hit with rfl | hit
            · rw [hmid]
              simp only [String.data_append, List.append_assoc]
              exact PH_append_clean hcf (PH_append_clean hmidclean (PH_dollar_repr _))
            · exact hPH it hit
    | num qv =>
      simp only [hv] at hw
      cases hst : cmpStatement c.type (whereParamsOf c.params).1
          ("$" ++ Nat.repr (vs.length + 1)) with
      | error e => rw [hst] at hw; simp [jsBind_error] at hw
      | ok stmt =>
        rw [hst, jsBind_ok] at hw
        cases hws : whereStatements rest (vs ++ [JSVal.num qv]) with
        | error e => rw [hws] at hw; simp [jsBind_error] at hw
        | ok p =>
          obtain ⟨vs₂, stmts'⟩ := p
          rw [hws, jsBind_ok] at hw
          cases hw
          obtain ⟨Δ, pairs, hΔ, hstmts, hrange, hPH⟩ := ih (vs ++ [JSVal.num qv]) hrest hws
          obtain ⟨mid, hmid, hmidclean, hmidhead, hmidne⟩ := cmpStatement_ok_shape hst
          refine ⟨JSVal.num qv :: Δ, (stmt, [vs.length + 1]) :: pairs,
            by simpa using hΔ, by simp [hstmts], ?_, ?_⟩
          · simp only [List.map_cons, List.flatten]
            rw [hrange]
            simp only [List.length_append, List.length_singleton, List.length_cons]
            rw [List.range'_succ]
            simp [Nat.add_comm, Nat.add_assoc, Nat.add_left_comm]
          · intro it hit
            rcases List.mem_cons.mp hit with rfl | hit
            · rw [hmid]
              simp only [String.data_append, List.append_assoc]
              exact PH_append_clean hcf (PH_append_clean hmidclean (PH_dollar_repr _))
            · exact hPH it hit
    | str sv =>
      simp only [hv] at hw
      cases hst : cmpStatement c.type (whereParamsOf c.params).1
          ("$" ++ Nat.repr (vs.length + 1)) with
      | error e => rw [hst] at hw; simp [jsBind_error] at hw
      | ok stmt =>
        rw [hst, jsBind_ok] at hw
        cases hws : whereStatements rest (vs ++ [JSVal.str sv]) with
        | error e => rw [hws] at hw; simp [jsBind_error] at hw
        | ok p =>
          obtain ⟨vs₂, stmts'⟩ := p
          rw [hws, jsBind_ok] at hw
          cases hw
          obtain ⟨Δ, pairs, hΔ, hstmts, hrange, hPH⟩ := ih (vs ++ [JSVal.str sv]) hrest hws
          obtain ⟨mid, hmid, hmidclean, hmidhead, hmidne⟩ := cmpStatement_ok_shape hst
          refine ⟨JSVal.str sv :: Δ, (stmt, [vs.length + 1]) :: pairs,
            by simpa using hΔ, by simp [hstmts], ?_, ?_⟩
          · simp only [List.map_cons, List.flatten]
            rw [hrange]
            simp only [List.length_append, List.length_singleton, List.length_cons]
            rw [List.range'_succ]
            simp [Nat.add_comm, Nat.add_assoc, Nat.add_left_comm]
          · intro it hit
            rcases List.mem_cons.mp hit with rfl | hit
            · rw [hmid]
              simp only [String.data_append, List.append_assoc]
              exact PH_append_clean hcf (PH_append_clean hmidclean (PH_dollar_repr _))
            · exact hPH it hit

theorem whereSection_spec {comps : List Component} {vs vs' : List JSVal} {w : String}
    (h : ∀ c ∈ comps, Clean (whereParamsOf c.params).1.data)
    (hw : whereSection comps vs = .ok (vs', w)) :
    ∃ Δ, vs' = vs ++ Δ ∧ PH w.data (List.range' (vs.length + 1) Δ.length) := by
  unfold whereSection at hw
  cases hws : whereStatements comps vs with
  | error e => rw [hws] at hw; simp [jsBind_error] at hw
  | ok p =>
    obtain ⟨vs₁, stmts⟩ := p
    rw [hws, jsBind_ok] at hw
    cases hw
    obtain ⟨Δ, pairs, hΔ, hstmts, hrange, hPH⟩ := whereStatements_spec comps vs h hws
    refine ⟨Δ, hΔ, ?_⟩
    subst hstmts
    have hj := PH_join " AND " (by decide) (by decide) (by decide) pairs hPH
    rw [hrange] at hj
    simp only [String.data_append]
    exact PH_append_clean (by decide) hj

theorem PH_sort_item (k : Nat) (order : String) (hord : Clean order.data) :
    PH ("$" ++ Nat.repr k ++ " " ++ order).data [k] := by
  have hterm : headNotDigit (' ' :: order.data) := rfl
  have hcl : Clean (' ' :: order.data) := by
    intro c hc
    rcases List.mem_cons.mp hc with rfl | hc
    · decide
    · exact hord c hc
  have h0 := @PH_placeholder_then k (' ' :: order.data) hterm hcl
  have he : ("$" ++ Nat.repr k ++ " " ++ order).data
      = '$' :: ((Nat.repr k).data ++ (' ' :: order.data)) := by
    simp only [String.data_append]
    simp [List.append_assoc]
  rw [he]
  exact h0

theorem sortFields_cons (f : String) (fs : List String) (order : String) (vs : List JSVal) :
    sortFields (f :: fs) order vs
      = ((sortFields fs order (vs ++ [JSVal.str f])).1,
          ("$" ++ Nat.repr (vs.length + 1) ++ " " ++ order)
            :: (sortFields fs order (vs ++ [JSVal.str f])).2) := by
  simp only [sortFields]
  rcases hr : sortFields fs order (vs ++ [JSVal.str f]) with ⟨vs₂, ss⟩
  simp [hr, List.length_append]

theorem sortFields_spec (order : String) (hord : Clean order.data) :
    ∀ (fields : List String) (vs : List JSVal),
      ∃ pairs : List (String × List Nat),
        (sortFields fields order vs).1 = vs ++ fields.map JSVal.str ∧
        (sortFields fields order vs).2 = pairs.map Prod.fst ∧
        (pairs.map Prod.snd).flatten = List.range' (vs.length + 1) fields.length ∧
        ∀ it ∈ pairs, PH it.1.data it.2 := by
  intro fields
  induction fields with
  | nil => intro vs; exact ⟨[], by simp [sortFields], rfl, by simp, by simp⟩
  | cons f fs ih =>
    intro vs
    obtain ⟨pairs, h1, h2, h3, h4⟩ := ih (vs ++ [JSVal.str f])
    refine ⟨("$" ++ Nat.repr (vs.length + 1) ++ " " ++ order, [vs.length + 1]) :: pairs,
      ?_, ?_, ?_, ?_⟩
    · rw [sortFields_cons]
      simp only [h1]
      simp
    · rw [sortFields_cons]
      simp [h2]
    · simp only [List.map_cons, List.flatten]
      rw [h3]
      simp only [List.length_append, List.length_singleton, List.length_cons]
      rw [List.range'_succ]
      simp [Nat.add_comm, Nat.add_assoc, Nat.add_left_comm]
    · intro it hit
      rcases List.mem_cons.mp hit with rfl | hit
      · exact PH_sort_item _ order hord
      · exact h4 it hit

theorem sortGroupsRender_spec :
    ∀ (groups : List CParams) (vs : List JSVal),
      (∀ p ∈ groups, ∀ fs ord, p = .sortP fs ord → (ord = "ASC" ∨ ord = "DESC")) →
      ∀ {vs' : List JSVal} {gs : List String},
        sortGroupsRender groups vs = .ok (vs', gs) →
        ∃ (Δ : List JSVal) (pairs : List (String × List Nat)),
          vs' = vs ++ Δ ∧ gs = pairs.map Prod.fst ∧
          (pairs.map Prod.snd).flatten = List.range' (vs.length + 1) Δ.length ∧
          ∀ it ∈ pairs, PH it.1.data it.2 := by
  intro groups
  induction groups with
  | nil =>
    intro vs h vs' gs hg
    simp only [sortGroupsRender] at hg
    cases hg
    exact ⟨[], [], by simp, rfl, by simp, by simp⟩
  | cons p ps ih =>
    intro vs h vs' gs hg
    cases p with
    | strs cols => simp [sortGroupsRender] at hg
    | name s => simp [sortGroupsRender] at hg
    | val v => simp [sortGroupsRender] at hg
    | whereP f v => simp [sortGroupsRender] at hg
    | raw t => simp [sortGroupsRender] at hg
    | sortP fields ord =>
      have hordd := h _ (List.mem_cons_self _ _) fields ord rfl
      have hord : Clean ord.data := by rcases hordd with rfl | rfl <;> decide
      obtain ⟨pairs₁, hf1, hf2, hf3, hf4⟩ := sortFields_spec ord hord fields vs
      simp only [sortGroupsRender] at hg
      rcases hsf : sortFields fields ord vs with ⟨vs₁, ss⟩
      simp only [hsf] at hg
      cases hrec : sortGroupsRender ps vs₁ with
      | error e => rw [hrec] at hg; simp [jsBind_error] at hg
      | ok pr =>
        obtain ⟨vs₂, gs'⟩ := pr
        rw [hrec, jsBind_ok] at hg
        cases hg
        have hvs₁ : vs₁ = vs ++ fields.map JSVal.str := by rw [← hf1, hsf]
        have hss : ss = pairs₁.map Prod.fst := by rw [← hf2, hsf]
        obtain ⟨Δ₂, pairs₂, hΔ₂, hgs', hrange₂, hPH₂⟩ :=
          ih vs₁ (fun q hq => h q (List.mem_cons_of_mem _ hq)) hrec
        refine ⟨fields.map JSVal.str ++ Δ₂,
          (jsJoin ", " ss, List.range' (vs.length + 1) fields.length) :: pairs₂,
          ?_, ?_, ?_, ?_⟩
        · rw [hΔ₂, hvs₁, List.append_assoc]
        · simp [hgs']
        · simp only [List.map_cons, List.flatten]
          rw [hrange₂, hvs₁]
          simp only [List.length_append, List.length_map]
          have hst : vs.length + fields.length + 1 = (vs.length + 1) + fields.length := by omega
          rw [hst, List.range'_append_1]
          simp [Nat.add_comm]
        · intro it hit
          rcases List.mem_cons.mp hit with rfl | hit
          · rw [hss]
            have hj := PH_join ", " (by decide) (by decide) (by decide) pairs₁ hf4
            rw [hf3] at hj
            exact hj
          · exact hPH₂ it hit

theorem sortSection_spec {groups : List CParams} {vs vs' : List JSVal} {s : String}
    (h : ∀ p ∈ groups, ∀ fs ord, p = .sortP fs ord → (ord = "ASC" ∨ ord = "DESC"))
    (hs : sortSection groups vs = .ok (vs', s)) :
    ∃ Δ, vs' = vs ++ Δ ∧ PH s.data (List.range' (vs.length + 1) Δ.length) := by
  unfold sortSection at hs
  cases hg : sortGroupsRender groups vs with
  | error e => rw [hg] at hs; simp [jsBind_error] at hs
  | ok pr =>
    obtain ⟨vs₁, gs⟩ := pr
    rw [hg, jsBind_ok] at hs
    cases hs
    obtain ⟨Δ, pairs, hΔ, hgs, hrange, hPH⟩ := sortGroupsRender_spec groups vs h hg
    refine ⟨Δ, hΔ, ?_⟩
    subst hgs
    have hj := PH_join ", " (by decide) (by decide) (by decide) pairs hPH
    rw [hrange] at hj
    simp only [String.data_append]
    exact PH_append_clean (by decide) hj

theorem jsJoin_append (sep : String) :
    ∀ (l₁ l₂ : List String), l₁ ≠ [] → l₂ ≠ [] →
      jsJoin sep (l₁ ++ l₂) = jsJoin sep l₁ ++ sep ++ jsJoin sep l₂ := by
  intro l₁
  induction l₁ with
  | nil => intro l₂ h₁ _; exact absurd rfl h₁
  | cons a rest ih =>
    intro l₂ h₁ h₂
    cases rest with
    | nil =>
      cases l₂ with
      | nil => exact absurd rfl h₂
      | cons b bs => simp [jsJoin]
    | cons c cs =>
      have hr := ih l₂ (by simp) h₂
      show jsJoin sep (a :: ((c :: cs) ++ l₂)) = _
      rw [show jsJoin sep (a :: ((c :: cs) ++ l₂))
          = a ++ sep ++ jsJoin sep ((c :: cs) ++ l₂) from rfl]
      rw [hr]
      rw [show jsJoin sep (a :: c :: cs) = a ++ sep ++ jsJoin sep (c :: cs) from rfl]
      simp [String.append_assoc]

theorem PH_nil_inv {ns : List Nat} (h : PH [] ns) : ns = [] := by
  cases h
  rfl

theorem PH_join_clean {sep : String} (hsep : Clean sep.data) {l : List String}
    (hl : ∀ s ∈ l, Clean s.data) : PH (jsJoin sep l).data [] :=
  PH_clean (Clean_jsJoin hsep hl)

theorem PH_jsJoin_space_append {l₁ l₂ : List String} {ns₁ ns₂ : List Nat}
    (h₁ : PH (jsJoin " " l₁).data ns₁) (h₂ : PH (jsJoin " " l₂).data ns₂)
    (hne : l₁ ≠ []) :
    PH (jsJoin " " (l₁ ++ l₂)).data (ns₁ ++ ns₂) := by
  cases l₂ with
  | nil =>
    have hns₂ : ns₂ = [] := PH_nil_inv h₂
    subst hns₂
    simpa using h₁
  | cons b bs =>
    rw [jsJoin_append " " l₁ (b :: bs) hne (by simp)]
    simp only [String.data_append, List.append_assoc]
    exact PH_append h₁ (PH_append_clean (by decide) h₂)
      (headNotDigit_append_left (by decide) (by decide) _)

theorem intRepr_clean (i : Int) : Clean (intRepr i).data := by
  cases i with
  | ofNat m =>
    show Clean (Nat.repr m).data
    rw [natRepr_data]
    exact natDigitsBE_clean m
  | negSucc m =>
    show Clean ("-" ++ Nat.repr (m + 1)).data
    simp only [String.data_append]
    refine Clean_append ?_ ?_
    · decide
    · rw [natRepr_data]
      exact natDigitsBE_clean (m + 1)

theorem limitSection_clean (i : Option Int) : Clean (limitSection i).data := by
  cases i with
  | none => decide
  | some n =>
    show Clean ("LIMIT " ++ intRepr n).data
    simp only [String.data_append]
    exact Clean_append (by decide) (intRepr_clean n)

theorem skipSection_clean (i : Option Int) : Clean (skipSection i).data := by
  cases i with
  | none => decide
  | some n =>
    show Clean ("OFFSET " ++ intRepr n).data
    simp only [String.data_append]
    exact Clean_append (by decide) (intRepr_clean n)

theorem jsCoerceName_clean_frm {p : CParams}
    (h : (∃ n, p = .name n ∧ Clean n.data) ∨ (∃ f v, p = .whereP f v)) :
    Clean (jsCoerceName p).data := by
  rcases h with ⟨n, rfl, hn⟩ | ⟨f, v, rfl⟩
  · exact hn
  · exact (by decide : Clean ("[object Object]" : String).data)

theorem fromSection_clean {frm : Option CParams}
    (hfrm : ∀ p, frm = some p →
      (∃ n, p = .name n ∧ Clean n.data) ∨ (∃ f v, p = .whereP f v)) :
    Clean (fromSection frm).data := by
  cases frm with
  | none => decide
  | some p =>
    show Clean ("FROM `" ++ jsCoerceName p ++ "`").data
    simp only [String.data_append]
    exact Clean_append (Clean_append (by decide) (jsCoerceName_clean_frm (hfrm p rfl))) (by decide)

theorem selectSection_clean {sel frm : Option CParams}
    (hsel : ∀ p, sel = some p →
      (∃ cols, p = .strs cols ∧ ∀ s ∈ cols, Clean s.data) ∨ (∃ f v, p = .whereP f v))
    (hfrm : ∀ p, frm = some p →
      (∃ n, p = .name n ∧ Clean n.data) ∨ (∃ f v, p = .whereP f v))
    {s : String} (h : selectSection sel frm = .ok s) : Clean s.data := by
  have hcols : ∀ (comps : List String), (∀ x ∈ comps, Clean x.data) →
      ∀ (p : CParams), frm = some p →
      Clean ("SELECT " ++ jsJoin "," (comps.map
        (fun c => "`" ++ jsCoerceName p ++ "`." ++ c))).data := by
    intro comps hc p hp
    simp only [String.data_append]
    refine Clean_append (by decide) (Clean_jsJoin (by decide) ?_)
    intro x hx
    rcases List.mem_map.mp hx with ⟨c, hcm, rfl⟩
    simp only [String.data_append]
    exact Clean_append (Clean_append (Clean_append (by decide)
      (jsCoerceName_clean_frm (hfrm p hp))) (by decide)) (hc c hcm)
  have hplain : ∀ (comps : List String), (∀ x ∈ comps, Clean x.data) →
      Clean ("SELECT " ++ jsJoin "," comps).data := by
    intro comps hc
    simp only [String.data_append]
    exact Clean_append (by decide) (Clean_jsJoin (by decide) hc)
  cases sel with
  | none =>
    cases hf : frm with
    | none =>
      rw [hf] at h
      cases h
      decide
    | some p =>
      rw [hf] at h
      cases h
      exact hcols ["*"] (by simp; decide) p hf
  | some sp =>
    rcases hsel sp rfl with ⟨cols, rfl, hc⟩ | ⟨f, v, rfl⟩
    · cases hf : frm with
      | none =>
        rw [hf] at h
        cases h
        exact hplain cols hc
      | some p =>
        rw [hf] at h
        cases h
        exact hcols cols hc p hf
    · cases hf : frm with
      | none => rw [hf] at h; cases h
      | some p => rw [hf] at h; cases h

theorem whereStage_spec {comps : List Component} {vs₀ : List JSVal}
    (hcl : ∀ c ∈ comps, Clean (whereParamsOf c.params).1.data)
    {out : List JSVal × List String} (h : whereStage comps vs₀ = .ok out) :
    ∃ Δ, out.1 = vs₀ ++ Δ ∧
      PH (jsJoin " " out.2).data (List.range' (vs₀.length + 1) Δ.length) := by
  unfold whereStage at h
  cases comps with
  | nil =>
    simp only [List.isEmpty_nil, if_true, jsPure] at h
    cases h
    exact ⟨[], by simp, PH.nil⟩
  | cons c cs =>
    simp only [List.isEmpty_cons, Bool.false_eq_true, if_false] at h
    cases hws : whereSection (c :: cs) vs₀ with
    | error e => rw [hws] at h; simp [jsBind_error] at h
    | ok p =>
      obtain ⟨vs₁, w⟩ := p
      rw [hws, jsBind_ok, jsPure] at h
      cases h
      obtain ⟨Δ, hΔ, hPH⟩ := whereSection_spec hcl hws
      exact ⟨Δ, hΔ, hPH⟩

theorem sortStage_spec {groups : List CParams} {vs₀ : List JSVal}
    (hg : ∀ p ∈ groups, ∀ fs ord, p = .sortP fs ord → (ord = "ASC" ∨ ord = "DESC"))
    {out : List JSVal × List String} (h : sortStage groups vs₀ = .ok out) :
    ∃ Δ, out.1 = vs₀ ++ Δ ∧
      PH (jsJoin " " out.2).data (List.range' (vs₀.length + 1) Δ.length) := by
  unfold sortStage at h
  cases groups with
  | nil =>
    simp only [List.isEmpty_nil, if_true, jsPure] at h
    cases h
    exact ⟨[], by simp, PH.nil⟩
  | cons g gs =>
    simp only [List.isEmpty_cons, Bool.false_eq_true, if_false] at h
    cases hss : sortSection (g :: gs) vs₀ with
    | error e => rw [hss] at h; simp [jsBind_error] at h
    | ok p =>
      obtain ⟨vs₁, w⟩ := p
      rw [hss, jsBind_ok, jsPure] at h
      cases h
      obtain ⟨Δ, hΔ, hPH⟩ := sortSection_spec hg hss
      exact ⟨Δ, hΔ, hPH⟩

theorem renderSections_PH {bk : Option String} {vs₀ : List JSVal} {st : Collected}
    (hst : StOK st) {q : String} {vs : List JSVal}
    (h : renderSections bk vs₀ st = .ok (q, vs)) :
    ∃ Δ : List JSVal, vs = vs₀ ++ Δ ∧
      PH q.data (List.range' (vs₀.length + 1) Δ.length) := by
  obtain ⟨hselO, hfrmO, hwhrO, hrawO, hsrtO⟩ := hst
  unfold renderSections at h
  cases hselres : selectSection st.sel st.frm with
  | error e => rw [hselres] at h; simp [jsBind_error] at h
  | ok selStr =>
    rw [hselres, jsBind_ok] at h
    have hselclean : Clean selStr.data := selectSection_clean hselO hfrmO hselres
    cases hW : whereStage st.whr vs₀ with
    | error e => rw [hW] at h; simp [jsBind_error] at h
    | ok outW =>
      rw [hW, jsBind_ok] at h
      cases hS : sortStage st.srt outW.1 with
      | error e => rw [hS] at h; simp [jsBind_error] at h
      | ok outS =>
        rw [hS, jsBind_ok] at h
        cases h
        obtain ⟨Δ₁, hΔ₁, hPH₁⟩ := whereStage_spec hwhrO hW
        obtain ⟨Δ₂, hΔ₂, hPH₂⟩ := sortStage_spec hsrtO hS
        refine ⟨Δ₁ ++ Δ₂, by rw [hΔ₂, hΔ₁, List.append_assoc], ?_⟩
        have hA : PH (jsJoin " " ([selStr]
            ++ (if jsTruthy bk then [fromSection st.frm] else []))).data [] := by
          apply PH_join_clean (by decide)
          intro x hx
          rcases List.mem_append.mp hx with hx | hx
          · rw [List.mem_singleton] at hx
            subst hx
            exact hselclean
          · split at hx
            · rw [List.mem_singleton] at hx
              subst hx
              exact fromSection_clean hfrmO
            · simp at hx
        have hR : PH (jsJoin " " (match st.raw with
            | none => []
            | some p => ["WHERE " ++ jsCoerceName p])).data [] := by
          apply PH_join_clean (by decide)
          intro x hx
          cases hr : st.raw with
          | none => rw [hr] at hx; simp at hx
          | some p =>
            rw [hr] at hx
            rw [List.mem_singleton] at hx
            subst hx
            obtain ⟨f, v, rfl⟩ := hrawO p hr
            show Clean ("WHERE " ++ jsCoerceName (.whereP f v)).data
            simp only [String.data_append]
            exact Clean_append (by decide)
              (by exact (by decide : Clean ("[object Object]" : String).data))
        have hL : PH (jsJoin " " (match st.lim with
            | none => []
            | some i => [limitSection i])).data [] := by
          apply PH_join_clean (by decide)
          intro x hx
          cases hr : st.lim with
          | none => rw [hr] at hx; simp at hx
          | some i =>
            rw [hr] at hx
            rw [List.mem_singleton] at hx
            subst hx
            exact limitSection_clean i
        have hK : PH (jsJoin " " (match st.skp with
            | none => []
            | some i => [skipSection i])).data [] := by
          apply PH_join_clean (by decide)
          intro x hx
          cases hr : st.skp with
          | none => rw [hr] at hx; simp at hx
          | some i =>
            rw [hr] at hx
            rw [List.mem_singleton] at hx
            subst hx
            exact skipSection_clean i
        have hPH₂' : PH (jsJoin " " outS.2).data
            (List.range' (vs₀.length + 1 + Δ₁.length) Δ₂.length) := by
          have hlen : outW.1.length = vs₀.length + Δ₁.length := by
            rw [hΔ₁, List.length_append]
          rw [hlen] at hPH₂
          have harith : vs₀.length + Δ₁.length + 1 = vs₀.length + 1 + Δ₁.length := by omega
          rw [harith] at hPH₂
          exact hPH₂
        have h₁ := PH_jsJoin_space_append hA hPH₁ (by simp)
        have h₂ := PH_jsJoin_space_append h₁ hR (by simp)
        have h₃ := PH_jsJoin_space_append h₂ hPH₂' (by simp)
        have h₄ := PH_jsJoin_space_append h₃ hL (by simp)
        have h₅ := PH_jsJoin_space_append h₄ hK (by simp)
        have hlist : (((([selStr] ++ (if jsTruthy bk then [fromSection st.frm] else []))
              ++ outW.2
              ++ (match st.raw with | none => [] | some p => ["WHERE " ++ jsCoerceName p])
              ++ outS.2
              ++ (match st.lim with | none => [] | some i => [limitSection i]))
              ++ (match st.skp with | none => [] | some i => [skipSection i])))
            = [selStr]
              ++ (if jsTruthy bk then [fromSection st.frm] else [])
              ++ outW.2
              ++ (match st.raw with | none => [] | some p => ["WHERE " ++ jsCoerceName p])
              ++ outS.2
              ++ (match st.lim with | none => [] | some i => [limitSection i])
              ++ (match st.skp with | none => [] | some i => [skipSection i]) := by
          simp [List.append_assoc]
        rw [hlist] at h₅
        have hns : (((([] ++ List.range' (vs₀.length + 1) Δ₁.length) ++ [])
              ++ List.range' (vs₀.length + 1 + Δ₁.length) Δ₂.length) ++ []) ++ []
            = List.range' (vs₀.length + 1) (Δ₁ ++ Δ₂).length := by
          simp only [List.append_nil, List.nil_append]
          rw [List.range'_append_1]
          simp [List.length_append, Nat.add_comm]
        rw [hns] at h₅
        exact h₅

/-! ### Shape preservation through the classification loop -/

set_option maxHeartbeats 2000000 in
theorem collectStep_cases {st : Collected} {c : Component} {st₁ : Collected}
    (h : collectStep st c = .ok st₁) :
    (c.type = "from" ∧ st₁ = { st with frm := some c.params }) ∨
    (c.type = "select" ∧ st₁ = { st with sel := some c.params }) ∨
    (c.type ∈ whereTypeTags ∧ st₁ = { st with whr := st.whr ++ [c] }) ∨
    (c.type = "rawWhere" ∧ st₁ = { st with raw := some c.params }) ∨
    (c.type = "limit" ∧ st₁ = { st with lim := some (parseIntC c.params) }) ∨
    (c.type = "skip" ∧ st₁ = { st with skp := some (parseIntC c.params) }) ∨
    (c.type = "sort" ∧ st₁ = { st with srt := st.srt ++ [c.params] }) ∨
    st₁ = st := by
  unfold collectStep at h
  split at h <;>
    first
      | (cases h; simp_all [whereTypeTags])
      | (split at h
         · cases h; simp_all
         · simp at h)

theorem goodComp_whereField {c : Component} (hc : GoodComp c) :
    Clean (whereParamsOf c.params).1.data := by
  rcases hc with ⟨f, v, hp, hcl⟩ | ⟨_, cols, hp, _⟩ | ⟨_, n, hp, _⟩ | ⟨_, v, hp⟩
    | ⟨_, fs, ord, hp, _⟩ <;> rw [hp]
  · exact hcl
  all_goals exact (by decide : Clean ("undefined" : String).data)

theorem goodComp_frm {c : Component} (hc : GoodComp c) (hty : c.type = "from") :
    (∃ n, c.params = .name n ∧ Clean n.data) ∨ (∃ f v, c.params = .whereP f v) := by
  rcases hc with ⟨f, v, hp, _⟩ | ⟨hty2, _⟩ | ⟨hty2, n, hp, hcln⟩ | ⟨hty2, _⟩ | ⟨hty2, _⟩
  · exact Or.inr ⟨f, v, hp⟩
  · exact absurd (hty2.symm.trans hty) (by decide)
  · exact Or.inl ⟨n, hp, hcln⟩
  · rcases hty2 with h' | h' <;> exact absurd (h'.symm.trans hty) (by decide)
  · exact absurd (hty2.symm.trans hty) (by decide)

theorem goodComp_sel {c : Component} (hc : GoodComp c) (hty : c.type = "select") :
    (∃ cols, c.params = .strs cols ∧ ∀ s ∈ cols, Clean s.data) ∨
    (∃ f v, c.params = .whereP f v) := by
  rcases hc with ⟨f, v, hp, _⟩ | ⟨_, cols, hp, hcln⟩ | ⟨hty2, _⟩ | ⟨hty2, _⟩ | ⟨hty2, _⟩
  · exact Or.inr ⟨f, v, hp⟩
  · exact Or.inl ⟨cols, hp, hcln⟩
  · exact absurd (hty2.symm.trans hty) (by decide)
  · rcases hty2 with h' | h' <;> exact absurd (h'.symm.trans hty) (by decide)
  · exact absurd (hty2.symm.trans hty) (by decide)

theorem goodComp_raw {c : Component} (hc : GoodComp c) (hty : c.type = "rawWhere") :
    ∃ f v, c.params = .whereP f v := by
  rcases hc with ⟨f, v, hp, _⟩ | ⟨hty2, _⟩ | ⟨hty2, _⟩ | ⟨hty2, _⟩ | ⟨hty2, _⟩
  · exact ⟨f, v, hp⟩
  · exact absurd (hty2.symm.trans hty) (by decide)
  · exact absurd (hty2.symm.trans hty) (by decide)
  · rcases hty2 with h' | h' <;> exact absurd (h'.symm.trans hty) (by decide)
  · exact absurd (hty2.symm.trans hty) (by decide)

theorem goodComp_srt {c : Component} (hc : GoodComp c) :
    ∀ fs ord, c.params = .sortP fs ord → (ord = "ASC" ∨ ord = "DESC") := by
  intro fs ord hsp
  rcases hc with ⟨f, v, hp, _⟩ | ⟨_, cols, hp, _⟩ | ⟨_, n, hp, _⟩ | ⟨_, v, hp⟩
    | ⟨_, fs', ord', hp, hord⟩
  · rw [hp] at hsp; simp at hsp
  · rw [hp] at hsp; simp at hsp
  · rw [hp] at hsp; simp at hsp
  · rw [hp] at hsp; simp at hsp
  · rw [hp] at hsp
    obtain ⟨-, rfl⟩ := CParams.sortP.inj hsp
    exact hord

theorem collectStep_StOK {st : Collected} {c : Component} (hst : StOK st) (hc : GoodComp c)
    {st₁ : Collected} (h : collectStep st c = .ok st₁) : StOK st₁ := by
  obtain ⟨hsel, hfrm, hwhr, hraw, hsrt⟩ := hst
  rcases collectStep_cases h with ⟨hty, rfl⟩ | ⟨hty, rfl⟩ | ⟨hty, rfl⟩ | ⟨hty, rfl⟩
    | ⟨hty, rfl⟩ | ⟨hty, rfl⟩ | ⟨hty, rfl⟩ | rfl
  · refine ⟨hsel, ?_, hwhr, hraw, hsrt⟩
    intro p hp
    cases hp
    exact goodComp_frm hc hty
  · refine ⟨?_, hfrm, hwhr, hraw, hsrt⟩
    intro p hp
    cases hp
    exact goodComp_sel hc hty
  · refine ⟨hsel, hfrm, ?_, hraw, hsrt⟩
    intro c' hc'
    rcases List.mem_append.mp hc' with hc' | hc'
    · exact hwhr c' hc'
    · rw [List.mem_singleton] at hc'
      subst hc'
      exact goodComp_whereField hc
  · refine ⟨hsel, hfrm, hwhr, ?_, hsrt⟩
    intro p hp
    cases hp
    exact goodComp_raw hc hty
  · exact ⟨hsel, hfrm, hwhr, hraw, hsrt⟩
  · exact ⟨hsel, hfrm, hwhr, hraw, hsrt⟩
  · refine ⟨hsel, hfrm, hwhr, hraw, ?_⟩
    intro p hp
    rcases List.mem_append.mp hp with hp | hp
    · exact hsrt p hp
    · rw [List.mem_singleton] at hp
      subst hp
      exact goodComp_srt hc
  · exact ⟨hsel, hfrm, hwhr, hraw, hsrt⟩

theorem collectLoop_StOK : ∀ {l : List Component}, (∀ c ∈ l, GoodComp c) →
    ∀ {st st₁ : Collected}, StOK st → collectLoop l st = .ok st₁ → StOK st₁ := by
  intro l
  induction l with
  | nil =>
    intro _ st st₁ hst h
    simp only [collectLoop] at h
    cases h
    exact hst
  | cons c rest ih =>
    intro hl st st₁ hst h
    simp only [collectLoop] at h
    cases hstep : collectStep st c with
    | error e => rw [hstep] at h; simp [jsBind_error] at h
    | ok st₂ =>
      rw [hstep, jsBind_ok] at h
      exact ih (fun x hx => hl x (List.mem_cons_of_mem _ hx))
        (collectStep_StOK hst (hl c (List.mem_cons_self _ _)) hstep) h

theorem initCollected_StOK {bucket : Option String} (hb : CleanBucket bucket) :
    StOK (initCollected bucket) := by
  refine ⟨?_, ?_, ?_, ?_, ?_⟩
  · intro p hp
    simp [initCollected] at hp
  · intro p hp
    cases bucket with
    | none => simp [initCollected] at hp
    | some s =>
      simp only [initCollected, Option.map_some'] at hp
      cases hp
      exact Or.inl ⟨s, rfl, hb⟩
  · intro c hc
    simp [initCollected] at hc
  · intro p hp
    simp [initCollected] at hp
  · intro p hp
    simp [initCollected] at hp

/-! ### Call sequences preserve the shape invariant -/

theorem applyOp_good {b : QueryBuilder} {op : Op} (hcl : OpClean op) (hnr : NonRaw op)
    {b₁ : QueryBuilder} (h : applyOp b op = .ok b₁) :
    b₁.bucket = b.bucket ∧ b₁.values = b.values ∧
    ∃ added : List Component, b₁.query = b.query ++ added ∧ ∀ c ∈ added, GoodComp c := by
  cases op with
  | select cols =>
    cases h
    refine ⟨rfl, rfl, [⟨"select", .strs cols⟩], rfl, ?_⟩
    intro c hc
    rw [List.mem_singleton] at hc
    subst hc
    exact Or.inr (Or.inl ⟨rfl, cols, rfl, hcl⟩)
  | from' n =>
    cases h
    refine ⟨rfl, rfl, [⟨"from", .name n⟩], rfl, ?_⟩
    intro c hc
    rw [List.mem_singleton] at hc
    subst hc
    exact Or.inr (Or.inr (Or.inl ⟨rfl, n, rfl, hcl⟩))
  | limit v =>
    simp only [applyOp, QueryBuilder.limit] at h
    split at h
    · simp at h
    · cases h
      refine ⟨rfl, rfl, [⟨"limit", .val v⟩], rfl, ?_⟩
      intro c hc
      rw [List.mem_singleton] at hc
      subst hc
      exact Or.inr (Or.inr (Or.inr (Or.inl ⟨Or.inl rfl, v, rfl⟩)))
  | skip v =>
    simp only [applyOp, QueryBuilder.skip] at h
    split at h
    · simp at h
    · cases h
      refine ⟨rfl, rfl, [⟨"skip", .val v⟩], rfl, ?_⟩
      intro c hc
      rw [List.mem_singleton] at hc
      subst hc
      exact Or.inr (Or.inr (Or.inr (Or.inl ⟨Or.inr rfl, v, rfl⟩)))
  | sort fields ord =>
    simp only [applyOp, QueryBuilder.sort] at h
    cases fields with
    | none => simp at h
    | some fs =>
      cases fs with
      | inl s =>
        simp only [] at h
        split at h
        · simp at h
        · next hcont =>
          cases h
          refine ⟨rfl, rfl, [⟨"sort", .sortP [s] (jsToUpper ord)⟩], rfl, ?_⟩
          intro c hc
          rw [List.mem_singleton] at hc
          subst hc
          refine Or.inr (Or.inr (Or.inr (Or.inr ⟨rfl, [s], jsToUpper ord, rfl, ?_⟩)))
          have hmem : jsToUpper ord ∈ ["ASC", "DESC"] := by
            have := Bool.of_not_eq_false hcont
            simpa using this
          simpa using hmem
      | inr l =>
        simp only [] at h
        split at h
        · simp at h
        · next hcont =>
          cases h
          refine ⟨rfl, rfl, [⟨"sort", .sortP l (jsToUpper ord)⟩], rfl, ?_⟩
          intro c hc
          rw [List.mem_singleton] at hc
          subst hc
          refine Or.inr (Or.inr (Or.inr (Or.inr ⟨rfl, l, jsToUpper ord, rfl, ?_⟩)))
          have hmem : jsToUpper ord ∈ ["ASC", "DESC"] := by
            have := Bool.of_not_eq_false hcont
            simpa using this
          simpa using hmem
  | where' f op' v =>
    cases h
    refine ⟨rfl, rfl, [⟨op', .whereP f v⟩], rfl, ?_⟩
    intro c hc
    rw [List.mem_singleton] at hc
    subst hc
    exact Or.inl ⟨f, v, rfl, hcl⟩
  | rawWhere t => exact hnr.elim

theorem applyOps_good : ∀ {ops : List Op} {b b' : QueryBuilder},
    (∀ op ∈ ops, OpClean op) → (∀ op ∈ ops, NonRaw op) →
    applyOps b ops = .ok b' →
    b'.bucket = b.bucket ∧ b'.values = b.values ∧
    ∃ added : List Component, b'.query = b.query ++ added ∧ ∀ c ∈ added, GoodComp c := by
  intro ops
  induction ops with
  | nil =>
    intro b b' _ _ h
    simp only [applyOps] at h
    cases h
    exact ⟨rfl, rfl, [], by simp, by simp⟩
  | cons op rest ih =>
    intro b b' hcl hnr h
    simp only [applyOps] at h
    cases hstep : applyOp b op with
    | error e => rw [hstep] at h; simp [jsBind_error] at h
    | ok b₁ =>
      rw [hstep, jsBind_ok] at h
      obtain ⟨hbk₁, hv₁, add₁, hq₁, hg₁⟩ :=
        applyOp_good (hcl op (List.mem_cons_self _ _)) (hnr op (List.mem_cons_self _ _)) hstep
      obtain ⟨hbk₂, hv₂, add₂, hq₂, hg₂⟩ :=
        ih (fun x hx => hcl x (List.mem_cons_of_mem _ hx))
          (fun x hx => hnr x (List.mem_cons_of_mem _ hx)) h
      refine ⟨hbk₂.trans hbk₁, hv₂.trans hv₁, add₁ ++ add₂, ?_, ?_⟩
      · rw [hq₂, hq₁, List.append_assoc]
      · intro c hc
        rcases List.mem_append.mp hc with hc | hc
        exacts [hg₁ c hc, hg₂ c hc]

/-! ### C1 -/

/-- C1 (amended): for every sequence of `select`/`from`/`limit`/`skip`/
`sort`/`where` calls — no `rawWhere` and no `interpret`, whose raw text
is spliced verbatim — on a fresh builder whose interpolated strings
(bucket name, `from` names, `select` columns, `where` fields) contain no
`$` character, a `build()` that returns normally renders a query whose
`$N` placeholders are exactly `$1..$len(values)`, each exactly once, in
ascending order of first use. -/
theorem build_placeholders_match_values (bucket : Option String) (ops : List Op)
    (hbk : CleanBucket bucket) (hcl : ∀ op ∈ ops, OpClean op)
    (hnr : ∀ op ∈ ops, NonRaw op)
    {b : QueryBuilder} (hap : applyOps (QueryBuilder.new bucket) ops = .ok b)
    {r : QueryBuilder × String × List JSVal} (hbuild : b.build = .ok r) :
    placeholders r.2.1 = List.range' 1 r.2.2.length := by
  obtain ⟨hbkt, hvals, added, hq, hgood⟩ := applyOps_good hcl hnr hap
  unfold QueryBuilder.build at hbuild
  cases hcol : collectLoop b.query (initCollected b.bucket) with
  | error e => rw [hcol] at hbuild; simp [jsBind_error] at hbuild
  | ok st =>
    rw [hcol, jsBind_ok] at hbuild
    cases hrd : renderSections b.bucket b.values st with
    | error e => rw [hrd] at hbuild; simp [jsBind_error] at hbuild
    | ok qv =>
      obtain ⟨q, vs⟩ := qv
      rw [hrd, jsBind_ok] at hbuild
      cases hbuild
      have hgood' : ∀ c ∈ b.query, GoodComp c := by
        intro c hc
        rw [hq] at hc
        simp only [QueryBuilder.new, List.nil_append] at hc
        exact hgood c hc
      have hbkt' : b.bucket = bucket := hbkt
      have hstok : StOK st := by
        refine collectLoop_StOK hgood' ?_ hcol
        rw [hbkt']
        exact initCollected_StOK hbk
      obtain ⟨Δ, hΔ, hPH⟩ := renderSections_PH hstok hrd
      have hv0 : b.values = [] := hvals
      rw [hv0] at hΔ hPH
      show placeholders q = List.range' 1 vs.length
      rw [hΔ]
      simp only [List.nil_append, List.length_nil] at hPH ⊢
      unfold placeholders
      exact ph_scanF hPH q.data.length (le_refl _)

theorem build_placeholders_match_values_witness :
    ∃ b r,
      applyOps (QueryBuilder.new (some "b"))
        [Op.where' ("x") "eq" (JSVal.num 1), Op.sort (some (Sum.inl "name")) "ASC",
         Op.limit (JSVal.num (mkRat 3 1))] = Except.ok b ∧
      b.build = Except.ok r ∧
      placeholders r.2.1 = List.range' 1 r.2.2.length := by
  refine ⟨_, _, rfl, rfl, ?_⟩
  exact build_placeholders_match_values (some "b")
    [Op.where' ("x") "eq" (JSVal.num 1), Op.sort (some (Sum.inl "name")) "ASC",
     Op.limit (JSVal.num (mkRat 3 1))]
    (by decide) (by decide) (by decide) rfl rfl

/-- C1 counterexample: the unrestricted claim fails.  `rawWhere('$1')` on a
fresh builder splices the raw text verbatim, so the built query
`SELECT * WHERE $1` contains the placeholder `$1` while the values list
is empty: the placeholder indices are not `1..len(values)`. -/
theorem rawWhere_breaks_placeholder_invariant :
    ∃ r, ((QueryBuilder.new none).rawWhere "$1").build = Except.ok r ∧
      r.2.1 = "SELECT * WHERE $1" ∧ r.2.2 = [] ∧
      placeholders r.2.1 ≠ List.range' 1 r.2.2.length := by
  refine ⟨_, rfl, rfl, rfl, ?_⟩
  decide

/-! ### C5: section-order decomposition of the rendering phase -/

theorem whereStage_shape {comps : List Component} {vs₀ : List JSVal}
    {out : List JSVal × List String} (h : whereStage comps vs₀ = .ok out) :
    ∃ vsW stmts, whereStatements comps vs₀ = .ok (vsW, stmts) ∧
      out = (vsW, if comps.isEmpty then [] else ["WHERE " ++ jsJoin " AND " stmts]) := by
  unfold whereStage at h
  cases comps with
  | nil =>
    simp only [List.isEmpty_nil, if_true, jsPure] at h
    cases h
    exact ⟨vs₀, [], rfl, rfl⟩
  | cons c cs =>
    simp only [List.isEmpty_cons, Bool.false_eq_true, if_false] at h
    cases hws : whereSection (c :: cs) vs₀ with
    | error e => rw [hws] at h; simp [jsBind_error] at h
    | ok p =>
      obtain ⟨vs₁, w⟩ := p
      rw [hws, jsBind_ok, jsPure] at h
      cases h
      unfold whereSection at hws
      cases hst : whereStatements (c :: cs) vs₀ with
      | error e => rw [hst] at hws; simp [jsBind_error] at hws
      | ok q =>
        obtain ⟨vsW, stmts⟩ := q
        rw [hst, jsBind_ok] at hws
        cases hws
        refine ⟨vs₁, stmts, rfl, ?_⟩
        simp

theorem sortStage_shape {groups : List CParams} {vs₀ : List JSVal}
    {out : List JSVal × List String} (h : sortStage groups vs₀ = .ok out) :
    ∃ vsS gs, sortGroupsRender groups vs₀ = .ok (vsS, gs) ∧
      out = (vsS, if groups.isEmpty then [] else ["ORDER BY " ++ jsJoin ", " gs]) := by
  unfold sortStage at h
  cases groups with
  | nil =>
    simp only [List.isEmpty_nil, if_true, jsPure] at h
    cases h
    exact ⟨vs₀, [], rfl, rfl⟩
  | cons g gs =>
    simp only [List.isEmpty_cons, Bool.false_eq_true, if_false] at h
    cases hss : sortSection (g :: gs) vs₀ with
    | error e => rw [hss] at h; simp [jsBind_error] at h
    | ok p =>
      obtain ⟨vs₁, w⟩ := p
      rw [hss, jsBind_ok, jsPure] at h
      cases h
      unfold sortSection at hss
      cases hgr : sortGroupsRender (g :: gs) vs₀ with
      | error e => rw [hgr] at hss; simp [jsBind_error] at hss
      | ok q =>
        obtain ⟨vsS, grs⟩ := q
        rw [hgr, jsBind_ok] at hss
        cases hss
        refine ⟨vs₁, grs, rfl, ?_⟩
        simp

/-- C5: every successful `build()` renders its sections in the fixed order
`SELECT`, then `FROM` exactly when a construction-time bucket is bound
(truthy), then the structured `WHERE` with the comparison clauses joined
by `AND` exactly when at least one comparison clause was collected, then
a second, independent `WHERE <rawWhere text>` segment exactly when a raw
clause was supplied — so a structured and a raw `WHERE` are emitted as
two separate `WHERE` clauses, never merged — then `ORDER BY` exactly
when sort groups exist, then `LIMIT`, then `OFFSET`, all joined by
single spaces. -/
theorem build_section_order {b : QueryBuilder} {r : QueryBuilder × String × List JSVal}
    (h : b.build = .ok r) :
    ∃ st selStr vsW stmts vsS gs,
      collectLoop b.query (initCollected b.bucket) = .ok st ∧
      selectSection st.sel st.frm = .ok selStr ∧
      whereStatements st.whr b.values = .ok (vsW, stmts) ∧
      sortGroupsRender st.srt vsW = .ok (vsS, gs) ∧
      r.2.2 = vsS ∧
      r.2.1 = jsJoin " "
        ([selStr]
          ++ (if jsTruthy b.bucket then [fromSection st.frm] else [])
          ++ (if st.whr.isEmpty then [] else ["WHERE " ++ jsJoin " AND " stmts])
          ++ (match st.raw with | none => [] | some p => ["WHERE " ++ jsCoerceName p])
          ++ (if st.srt.isEmpty then [] else ["ORDER BY " ++ jsJoin ", " gs])
          ++ (match st.lim with | none => [] | some i => [limitSection i])
          ++ (match st.skp with | none => [] | some i => [skipSection i])) := by
  unfold QueryBuilder.build at h
  cases hcol : collectLoop b.query (initCollected b.bucket) with
  | error e => rw [hcol] at h; simp [jsBind_error] at h
  | ok st =>
    rw [hcol, jsBind_ok] at h
    cases hrd : renderSections b.bucket b.values st with
    | error e => rw [hrd] at h; simp [jsBind_error] at h
    | ok qv =>
      rw [hrd, jsBind_ok] at h
      cases h
      unfold renderSections at hrd
      cases hsel : selectSection st.sel st.frm with
      | error e => rw [hsel] at hrd; simp [jsBind_error] at hrd
      | ok selStr =>
        rw [hsel, jsBind_ok] at hrd
        cases hwst : whereStage st.whr b.values with
        | error e => rw [hwst] at hrd; simp [jsBind_error] at hrd
        | ok outW =>
          rw [hwst, jsBind_ok] at hrd
          cases hsst : sortStage st.srt outW.1 with
          | error e => rw [hsst] at hrd; simp [jsBind_error] at hrd
          | ok outS =>
            rw [hsst, jsBind_ok] at hrd
            cases hrd
            obtain ⟨vsW, stmts, hwsts, houtW⟩ := whereStage_shape hwst
            rw [houtW] at hsst
            obtain ⟨vsS, gs, hgrs, houtS⟩ := sortStage_shape hsst
            refine ⟨st, selStr, vsW, stmts, vsS, gs, rfl, hsel, hwsts, hgrs, ?_, ?_⟩
            · rw [houtS]
            · rw [houtW, houtS]

theorem build_section_order_witness :
    ∃ r, sampleMixedBuilder.build = Except.ok r ∧
      ∃ st selStr vsW stmts vsS gs,
        collectLoop sampleMixedBuilder.query
          (initCollected sampleMixedBuilder.bucket) = .ok st ∧
        selectSection st.sel st.frm = .ok selStr ∧
        whereStatements st.whr sampleMixedBuilder.values = .ok (vsW, stmts) ∧
        sortGroupsRender st.srt vsW = .ok (vsS, gs) ∧
        r.2.2 = vsS ∧
        r.2.1 = jsJoin " "
          ([selStr]
            ++ (if jsTruthy sampleMixedBuilder.bucket then [fromSection st.frm] else [])
            ++ (if st.whr.isEmpty then [] else ["WHERE " ++ jsJoin " AND " stmts])
            ++ (match st.raw with | none => [] | some p => ["WHERE " ++ jsCoerceName p])
            ++ (if st.srt.isEmpty then [] else ["ORDER BY " ++ jsJoin ", " gs])
            ++ (match st.lim with | none => [] | some i => [limitSection i])
            ++ (match st.skp with | none => [] | some i => [skipSection i])) := by
  refine ⟨_, rfl, ?_⟩
  exact build_section_order rfl

end FeathersCouchbase
